import Mathlib

/-!
# Uptime statistics of gatus: embedding and verified properties

The development embeds three source files:

* `core/uptime.go`: the hourly bucket, the `Uptime` value and the percentage over a window;
* `storage/store/memory/uptime.go`: ingest, retention cleanup and the fixed-window percentages of
  the in-memory backend;
* `storage/store/sql/sql.go`: the upsert and the tiered delete of the relational backend.

Conventions of the embedding.

* `uint64` counters are natural numbers and every addition of the source is followed by
  `% 2 ^ 64`; `int64` values are integers.
* A `time.Time` is the number of nanoseconds since the Unix epoch, a `time.Duration` a number of
  nanoseconds. Every call of `time.Now()` is an explicit argument.
* A `float64` is the rational number it denotes. Conversions, quotients and products round to
  the nearest value with a 53 bit significand, ties to even. All values that occur lie between
  `2 ^ (-64)` and `2 ^ 71` or are zero, so neither overflow nor gradual underflow can occur.
* Calendar dates are those of the proleptic Gregorian calendar in the location of the
  instant; a location is its zone lookup, and `AddDate` normalizes as `time.Date` does.
* A table is the list of its rows with integer columns; a statement is its effect on the
  table.
* A Go map is the list of its entries; the order of the list is the iteration order. The
  functions neither need nor assume that keys are distinct, and the only writer of the source
  never stores a nil bucket, so buckets are values.
-/

namespace Gatus

/-! ## Machine arithmetic -/

/-- The conversion `uint64(x)` of a signed 64 bit integer. -/
def toUint64 (x : Int) : Nat := (x % 2 ^ 64).toNat

/-- Reduction of an integer to the range of `int64`, as signed overflow does. -/
def wrapInt64 (x : Int) : Int := (x + 2 ^ 63) % 2 ^ 64 - 2 ^ 63

/-! ## Binary floating point -/

/-- The values of `float64` that occur, as rationals. -/
abbrev Float64 := ℚ

/-- Rounding of a rational to the nearest integer, ties to the even neighbour. -/
def roundHalfEven (x : ℚ) : ℤ :=
  if x - ⌊x⌋ < 1 / 2 then ⌊x⌋
  else if 1 / 2 < x - ⌊x⌋ then ⌊x⌋ + 1
  else if ⌊x⌋ % 2 = 0 then ⌊x⌋ else ⌊x⌋ + 1

/-- The unit in the last place of the binade of `q` for a 53 bit significand. -/
def ulp (q : ℚ) : ℚ := 2 ^ (Int.log 2 |q| - 52)

/-- Rounding to the nearest `float64`, ties to even (normal range). -/
def roundFloat64 (q : ℚ) : Float64 := roundHalfEven (q / ulp q) * ulp q

/-- The conversion `float64(n)` of an unsigned integer. -/
def float64OfUint64 (n : Nat) : Float64 := roundFloat64 n

/-- The quotient `a / b` of two `float64` values. -/
def fdiv (a b : Float64) : Float64 := roundFloat64 (a / b)

/-- The product `a * b` of two `float64` values. -/
def fmul (a b : Float64) : Float64 := roundFloat64 (a * b)

/-! ## Package `time` -/

/-- An instant: nanoseconds since January 1, 1970 UTC. -/
abbrev Time := Int

/-- A `time.Duration`: a signed count of nanoseconds. -/
abbrev Duration := Int

/-- The constant `time.Second`. -/
def Second : Duration := 1000000000

/-- The constant `time.Hour`. -/
def Hour : Duration := 3600 * Second

/-- Seconds from January 1 of year 1, the zero time, to the Unix epoch. -/
def unixToInternal : Int := 62135596800

/-- The method `t.Add(d)`. -/
def timeAdd (t : Time) (d : Duration) : Time := t + d

/-- The method `t.Unix()`: whole seconds since the epoch, rounded down. -/
def timeUnix (t : Time) : Int := t / Second

/-- The method `t.Before(u)`. -/
def timeBefore (t u : Time) : Bool := decide (t < u)

/-- The method `t.Truncate(d)`: rounds `t` down to a multiple of `d` since the zero time. -/
def timeTruncate (t : Time) (d : Duration) : Time :=
  if d ≤ 0 then t else t - (t + unixToInternal * Second) % d

/-- The method `d.Milliseconds()`: integer division truncating toward zero. -/
def durationMilliseconds (d : Duration) : Int := Int.tdiv d 1000000

/-- The negation `-d` of a duration, in 64 bit signed arithmetic. -/
def negDuration (d : Duration) : Duration := wrapInt64 (-d)

/-! ## Package `core` -/

/-- The struct `HourlyUptimeStatistics`: the metrics collected over one hour. -/
structure HourlyUptimeStatistics where
  TotalExecutions : Nat
  SuccessfulExecutions : Nat
  TotalExecutionsResponseTime : Nat
deriving DecidableEq

/-- The entries of a `map[int64]*HourlyUptimeStatistics`. -/
abbrev HourlyMap := List (Int × HourlyUptimeStatistics)

/-- Modelled from the spec: the five percentage fields are assigned by
`updateUptimePercentages` but their declaration is missing from the struct `Uptime` of
`core/uptime.go`; the spec names them as the precomputed 7/30/60/90/120-day percentages.
`HourlyStatistics` is `none` for the nil map. -/
structure Uptime where
  HourlyStatistics : Option HourlyMap
  SevenDayPercentage : Float64
  ThirtyDayPercentage : Float64
  SixtyDayPercentage : Float64
  NinetyDayPercentage : Float64
  OneHundredTwentyDayPercentage : Float64
deriving DecidableEq

/-- Modelled from the spec: the struct `Result` is declared outside the three source files; the
code reads its fields `Timestamp`, `Success` and `Duration`. -/
structure Result where
  Timestamp : Time
  Success : Bool
  Duration : Duration
deriving DecidableEq

/-- The function `NewUptime`: an empty, non-nil map and zero percentages. -/
def NewUptime : Uptime :=
  { HourlyStatistics := some [], SevenDayPercentage := 0, ThirtyDayPercentage := 0,
    SixtyDayPercentage := 0, NinetyDayPercentage := 0, OneHundredTwentyDayPercentage := 0 }

/-- The entries a `range` loop visits; a nil map has none. -/
def mapEntries (m : Option HourlyMap) : HourlyMap := m.getD []

/-- The map read `m[k]`, `none` when the key is absent. -/
def mapLookup (m : HourlyMap) (k : Int) : Option HourlyUptimeStatistics :=
  match m with
  | [] => none
  | e :: rest => if e.1 = k then some e.2 else mapLookup rest k

/-- The map write `m[k] = v`. -/
def mapStore (m : HourlyMap) (k : Int) (v : HourlyUptimeStatistics) : HourlyMap :=
  match m with
  | [] => [(k, v)]
  | e :: rest => if e.1 = k then (k, v) :: rest else e :: mapStore rest k v

/-- The builtin `delete(m, k)`. -/
def mapDelete (m : HourlyMap) (k : Int) : HourlyMap := m.filter (fun e => decide (e.1 ≠ k))

/-- The final expression of both percentage functions, on the accumulated counters. -/
def percentageOf (successfulExecutions totalExecutions : Nat) : Float64 :=
  if totalExecutions = 0 then 100
  else fmul (fdiv (float64OfUint64 successfulExecutions) (float64OfUint64 totalExecutions)) 100

/-- One iteration of the loop of `Uptime.calculateUptimePercentage`; the accumulator is
`(totalExecutions, successfulExecutions)`. -/
def coreStep (fromTime toTime : Int) (acc : Nat × Nat) (e : Int × HourlyUptimeStatistics) :
    Nat × Nat :=
  if e.1 ≥ fromTime ∧ e.1 ≤ toTime then
    ((acc.1 + e.2.TotalExecutions) % 2 ^ 64, (acc.2 + e.2.SuccessfulExecutions) % 2 ^ 64)
  else acc

/-- The method `Uptime.calculateUptimePercentage` of `core/uptime.go`. -/
def core.calculateUptimePercentage (u : Uptime) (fromTime toTime : Int) : Float64 :=
  let acc := (mapEntries u.HourlyStatistics).foldl (coreStep fromTime toTime) (0, 0)
  percentageOf acc.2 acc.1

/-! ## Package `memory` -/

/-- The constant `sevenDays`. -/
def sevenDays : Duration := 7 * 24 * Hour

/-- The constant `thirtyDays`. -/
def thirtyDays : Duration := 30 * 24 * Hour

/-- The constant `ninetyDays`. -/
def ninetyDays : Duration := 90 * 24 * Hour

/-- The constant `sixtyDays`. -/
def sixtyDays : Duration := 60 * 24 * Hour

/-- The constant `oneHundredTwentyDays`. -/
def oneHundredTwentyDays : Duration := 120 * 24 * Hour

/-- One iteration of the loop of the in-memory `calculateUptimePercentage`; the accumulator is
`(successfulExecutions, totalExecutions)`. -/
def memoryStep (endTimestamp : Int) (acc : Nat × Nat) (e : Int × HourlyUptimeStatistics) :
    Nat × Nat :=
  if e.1 ≥ endTimestamp then
    ((acc.1 + e.2.SuccessfulExecutions) % 2 ^ 64, (acc.2 + e.2.TotalExecutions) % 2 ^ 64)
  else acc

/-- The function `calculateUptimePercentage` of `memory/uptime.go`. -/
def memory.calculateUptimePercentage (uptime : Uptime) (endTime : Time) : Float64 :=
  let endTimestamp := timeUnix endTime
  let acc := (mapEntries uptime.HourlyStatistics).foldl (memoryStep endTimestamp) (0, 0)
  percentageOf acc.1 acc.2

/-- The loop of `cleanupOldStatistics`: visits every key of the map and deletes the keys
below the threshold. -/
def cleanupLoop (threshold : Int) (m : HourlyMap) : HourlyMap :=
  (m.map Prod.fst).foldl (fun acc timestamp =>
    if timestamp < threshold then mapDelete acc timestamp else acc) m

/-- The function `cleanupOldStatistics`; `now` is the reading of `time.Now()`. -/
def memory.cleanupOldStatistics (uptime : Uptime) (duration : Duration) (now : Time) : Uptime :=
  let threshold := timeUnix (timeAdd now (negDuration duration))
  { uptime with HourlyStatistics := uptime.HourlyStatistics.map (cleanupLoop threshold) }

/-- The function `updateUptimePercentages`; `now` is the reading of `time.Now()`. -/
def memory.updateUptimePercentages (uptime : Uptime) (now : Time) : Uptime :=
  { uptime with
    SevenDayPercentage := memory.calculateUptimePercentage uptime (timeAdd now (-sevenDays))
    ThirtyDayPercentage := memory.calculateUptimePercentage uptime (timeAdd now (-thirtyDays))
    SixtyDayPercentage := memory.calculateUptimePercentage uptime (timeAdd now (-sixtyDays))
    NinetyDayPercentage := memory.calculateUptimePercentage uptime (timeAdd now (-ninetyDays))
    OneHundredTwentyDayPercentage :=
      memory.calculateUptimePercentage uptime (timeAdd now (-oneHundredTwentyDays)) }

/-- The key of the bucket of a result: `result.Timestamp.Truncate(time.Hour).Unix()`. -/
def unixTimestampFlooredAtHour (result : Result) : Int :=
  timeUnix (timeTruncate result.Timestamp Hour)

/-- The three writes through the pointer `hourlyStats`, in source order. -/
def recordResult (hourlyStats : HourlyUptimeStatistics) (result : Result) :
    HourlyUptimeStatistics :=
  let s1 := if result.Success then
      { hourlyStats with SuccessfulExecutions := (hourlyStats.SuccessfulExecutions + 1) % 2 ^ 64 }
    else hourlyStats
  let s2 := { s1 with TotalExecutions := (s1.TotalExecutions + 1) % 2 ^ 64 }
  { s2 with TotalExecutionsResponseTime :=
      (s2.TotalExecutionsResponseTime + toUint64 (durationMilliseconds result.Duration)) % 2 ^ 64 }

/-- The first half of `processUptimeAfterResult`, up to the cleanup: allocation of a nil map,
lookup or creation of the bucket of the hour, and the counter updates. -/
def upsertBucket (uptime : Uptime) (result : Result) : Uptime :=
  let m := mapEntries uptime.HourlyStatistics
  let key := unixTimestampFlooredAtHour result
  let hourlyStats := (mapLookup m key).getD ⟨0, 0, 0⟩
  { uptime with HourlyStatistics := some (mapStore m key (recordResult hourlyStats result)) }

/-- The four cleanup passes of `processUptimeAfterResult`; `now i` is the reading of
`time.Now()` in pass `i`. -/
def cleanupPasses (uptime : Uptime) (now : Nat → Time) : Uptime :=
  memory.cleanupOldStatistics
    (memory.cleanupOldStatistics
      (memory.cleanupOldStatistics
        (memory.cleanupOldStatistics uptime thirtyDays (now 0))
        sixtyDays (now 1))
      ninetyDays (now 2))
    oneHundredTwentyDays (now 3)

/-- The function `processUptimeAfterResult`; `now 0` to `now 3` are the readings of
`time.Now()` in the four cleanup passes and `now 4` the one of `updateUptimePercentages`. -/
def memory.processUptimeAfterResult (uptime : Uptime) (result : Result) (now : Nat → Time) :
    Uptime :=
  memory.updateUptimePercentages (cleanupPasses (upsertBucket uptime result) now) (now 4)

/-! ## Package `sql` -/

/-- The constant `customUptimeCleanupThreshold`. -/
def customUptimeCleanupThreshold : Duration := 35 * 24 * Hour

/-- The constant `shortTermUptimeRetentionDuration`. -/
def shortTermUptimeRetentionDuration : Duration := 7 * 24 * Hour

/-- The constant `mediumTermUptimeRetentionDuration`. -/
def mediumTermUptimeRetentionDuration : Duration := 14 * 24 * Hour

/-- The constant `longTermUptimeRetentionDuration`. -/
def longTermUptimeRetentionDuration : Duration := 60 * 24 * Hour

/-- The constant `shortTermUptimeCleanupThreshold`. -/
def shortTermUptimeCleanupThreshold : Duration := 8 * 24 * Hour

/-- The constant `mediumTermUptimeCleanupThreshold`. -/
def mediumTermUptimeCleanupThreshold : Duration := 15 * 24 * Hour

/-- The constant `longTermUptimeCleanupThreshold`. -/
def longTermUptimeCleanupThreshold : Duration := 65 * 24 * Hour

/-- A row of the table `endpoint_uptimes`. -/
structure EndpointUptimeRow where
  endpoint_id : Int
  hour_unix_timestamp : Int
  total_executions : Int
  successful_executions : Int
  total_response_time : Int
deriving DecidableEq

/-- The content of the table `endpoint_uptimes` seen by a transaction. -/
abbrev EndpointUptimes := List EndpointUptimeRow

/-- The switch of `deleteOldUptimeEntries` that selects `cleanupThreshold`; `now i` is the
reading of `time.Now()` in case `i`. -/
def sql.cleanupThreshold (maxAge : Time) (now : Nat → Time) : Duration :=
  if timeBefore maxAge (timeAdd (now 0) (-longTermUptimeRetentionDuration)) then
    longTermUptimeCleanupThreshold
  else if timeBefore maxAge (timeAdd (now 1) (-mediumTermUptimeRetentionDuration)) then
    mediumTermUptimeCleanupThreshold
  else if timeBefore maxAge (timeAdd (now 2) (-shortTermUptimeRetentionDuration)) then
    shortTermUptimeCleanupThreshold
  else customUptimeCleanupThreshold

/-- The second argument of the `DELETE` statement of `deleteOldUptimeEntries`. -/
def sql.deleteBound (maxAge : Time) (now : Nat → Time) : Int :=
  timeUnix (timeAdd maxAge (negDuration (sql.cleanupThreshold maxAge now)))

/-- The method `Store.deleteOldUptimeEntries`: the effect of its `DELETE` statement on the
table. The error value of the driver is not part of the embedding. -/
def sql.deleteOldUptimeEntries (tx : EndpointUptimes) (endpointID : Int) (maxAge : Time)
    (now : Nat → Time) : EndpointUptimes :=
  tx.filter (fun row =>
    !(decide (row.endpoint_id = endpointID) &&
      decide (row.hour_unix_timestamp < sql.deleteBound maxAge now)))

/-! ## Quantities named by the specification -/

/-- Membership of a bucket in the window `[fromTime, toTime]`, both ends included. -/
def inWindow (fromTime toTime : Int) (e : Int × HourlyUptimeStatistics) : Bool :=
  decide (fromTime ≤ e.1) && decide (e.1 ≤ toTime)

/-- The sum of `TotalExecutions` over a list of buckets. -/
def sumTotal (m : HourlyMap) : Nat := (m.map (fun e => e.2.TotalExecutions)).sum

/-- The sum of `SuccessfulExecutions` over a list of buckets. -/
def sumSuccessful (m : HourlyMap) : Nat := (m.map (fun e => e.2.SuccessfulExecutions)).sum

/-- The bucket invariant of the data model. -/
def bucketInvariant (s : HourlyUptimeStatistics) : Prop :=
  s.SuccessfulExecutions ≤ s.TotalExecutions

/-- Membership of a bucket in the window that starts at `start` and has no upper end. -/
def atOrAfter (start : Int) (e : Int × HourlyUptimeStatistics) : Bool := decide (start ≤ e.1)


/-- A run of ingests: each result comes with the clock readings of its call. -/
def ingestAll (uptime : Uptime) (results : List (Result × (Nat → Time))) : Uptime :=
  results.foldl (fun u rc => memory.processUptimeAfterResult u rc.1 rc.2) uptime


/-- A number of days as a duration: `n` times 24 hours of 3600 seconds, in nanoseconds. -/
def days (n : Int) : Int := n * 86400000000000


/-! ## Calendar arithmetic of package `time` -/

/-- Nanoseconds in a day of 24 hours. -/
def nanosecondsPerDay : Int := 86400000000000

/-- The day number, counted from January 1, 1970, of a date of the proleptic Gregorian
calendar, normalized as `time.Date` does: a month outside 1 to 12 carries into the year and
a day outside the month carries into the following or preceding months. -/
def daysFromCivil (year month day : Int) : Int :=
  let y := year + (month - 1) / 12
  let m := (month - 1) % 12 + 1
  let yy := if m ≤ 2 then y - 1 else y
  let mp := if m ≤ 2 then m + 9 else m - 3
  let era := yy / 400
  let yoe := yy - era * 400
  let doy := (153 * mp + 2) / 5 + day - 1
  era * 146097 + yoe * 365 + yoe / 4 - yoe / 100 + doy - 719468

/-- The year, month and day of a day number, by cycles of 400, 100, 4 and 1 years that begin
on March 1. -/
def civilFromDays (z : Int) : Int × Int × Int :=
  let z1 := z + 719468
  let era := z1 / 146097
  let doe := z1 % 146097
  let c := if doe / 36524 < 3 then doe / 36524 else 3
  let r1 := doe - 36524 * c
  let q := r1 / 1461
  let r2 := r1 % 1461
  let e := if r2 / 365 < 3 then r2 / 365 else 3
  let doy := r2 - 365 * e
  let mp := (5 * doy + 2) / 153
  let d := doy - (153 * mp + 2) / 5 + 1
  let m := if mp < 10 then mp + 3 else mp - 9
  let y := 400 * era + 100 * c + 4 * q + e
  (if m ≤ 2 then y + 1 else y, m, d)

/-- Leap years of the Gregorian calendar. -/
def isLeap (year : Int) : Bool :=
  decide (year % 4 = 0) && (decide (year % 100 ≠ 0) || decide (year % 400 = 0))

/-- The number of days of a month. -/
def daysIn (year month : Int) : Int :=
  if month = 2 then (if isLeap year then 29 else 28)
  else if month = 4 ∨ month = 6 ∨ month = 9 ∨ month = 11 then 30
  else 31

/-- The zone that a `*time.Location` has in force at a Unix second, as its method `lookup`
returns it: the offset east of UTC in seconds and the span `[start, finish)` of Unix seconds
during which the zone is in force. -/
structure ZoneSpan where
  offset : Int
  start : Int
  finish : Int
deriving DecidableEq

/-- A `*time.Location`, given by its method `lookup`. -/
abbrev Location := Int → ZoneSpan

/-- The location `time.FixedZone(name, offset)`; `time.UTC` is `fixedZone 0`. -/
def fixedZone (offset : Int) : Location := fun _ => ⟨offset, -2 ^ 63, 2 ^ 63 - 1⟩

/-- The location `Pacific/Kiritimati` of the time zone database: local mean time -10:29:20
until 1901, then -10:40 until October 1979, then -10:00 until the end of December 30, 1994
(Unix second 788868000), and +14:00 since, so that December 31, 1994 does not exist there. -/
def kiritimati : Location := fun sec =>
  if sec < -2177415040 then ⟨-37760, -2 ^ 63, -2177415040⟩
  else if sec < 307622400 then ⟨-38400, -2177415040, 307622400⟩
  else if sec < 788868000 then ⟨-36000, 307622400, 788868000⟩
  else ⟨50400, 788868000, 2 ^ 63 - 1⟩

/-- The wall clock reading of an instant in a location, in seconds: the Unix second plus the
offset in force at it. -/
def localSeconds (loc : Location) (t : Time) : Int := timeUnix t + (loc (timeUnix t)).offset

/-- The method `t.Date()`: year, month and day of an instant in its location. -/
def timeDate (loc : Location) (t : Time) : Int × Int × Int :=
  civilFromDays (localSeconds loc t / 86400)

/-- The method `t.Clock()` as the second of the day: `hour * 3600 + min * 60 + sec`. -/
def timeClock (loc : Location) (t : Time) : Int := localSeconds loc t % 86400

/-- The function `time.Date(year, month, day, hour, min, sec, nsec, loc)` in Unix seconds,
with the clock given as the second of the day: the wall clock reading is first taken as a Unix
second to look up a zone, and when the reading minus that offset lies outside the span of the
zone, the offset in force at the reading minus the offset is used. -/
def dateSeconds (loc : Location) (year month day secondOfDay : Int) : Int :=
  let unix := daysFromCivil year month day * 86400 + secondOfDay
  if (loc unix).offset ≠ 0 then
    if unix - (loc unix).offset < (loc unix).start ∨
        unix - (loc unix).offset ≥ (loc unix).finish then
      unix - (loc (unix - (loc unix).offset)).offset
    else unix - (loc unix).offset
  else unix

/-- The method `t.AddDate(years, months, days)`: `time.Date` of the date of `t` with the three
numbers added, at the clock and the nanosecond of `t`, in the location of `t`. -/
def timeAddDate (loc : Location) (t : Time) (years months days : Int) : Time :=
  dateSeconds loc ((timeDate loc t).1 + years) ((timeDate loc t).2.1 + months)
      ((timeDate loc t).2.2 + days) (timeClock loc t) * 1000000000 + t % 1000000000

/-- The wall clock reading that `t.AddDate(years, months, days)` asks for, in seconds. -/
def wallSeconds (loc : Location) (t : Time) (years months days : Int) : Int :=
  daysFromCivil ((timeDate loc t).1 + years) ((timeDate loc t).2.1 + months)
    ((timeDate loc t).2.2 + days) * 86400 + timeClock loc t

/-- A wall clock reading is settled in a location when the zone found at the reading, taken
as a Unix second, is also in force at the reading minus its offset. Every reading is settled
in a location with one fixed offset. -/
def zoneSettled (loc : Location) (wall : Int) : Prop :=
  (loc (wall - (loc wall).offset)).offset = (loc wall).offset

/-! ## Package `core`: the convenience windows -/

/-- The method `Uptime.UptimeLastMonth`; `now` is the reading of `time.Now()` and `loc` its
location. -/
def core.UptimeLastMonth (u : Uptime) (loc : Location) (now : Time) : Float64 :=
  let lastMonth := timeAddDate loc now 0 (-1) 0
  core.calculateUptimePercentage u (timeUnix lastMonth) (timeUnix now)

/-- The method `Uptime.UptimeLast90Days`; `now` is the reading of `time.Now()` and `loc` its
location. -/
def core.UptimeLast90Days (u : Uptime) (loc : Location) (now : Time) : Float64 :=
  let ninetyDaysAgo := timeAddDate loc now 0 0 (-90)
  core.calculateUptimePercentage u (timeUnix ninetyDaysAgo) (timeUnix now)

/-- The method `Uptime.UptimeLastYear`; `now` is the reading of `time.Now()` and `loc` its
location. -/
def core.UptimeLastYear (u : Uptime) (loc : Location) (now : Time) : Float64 :=
  let lastYear := timeAddDate loc now (-1) 0 0
  core.calculateUptimePercentage u (timeUnix lastYear) (timeUnix now)

/-! ## Package `sql`: the upsert -/

/-- The statement `INSERT ... ON CONFLICT(endpoint_id, hour_unix_timestamp) DO UPDATE` of
`updateEndpointUptime`: a row with the key of `excluded` gets the three sums
`excluded.x + endpoint_uptimes.x`, and without such a row `excluded` is inserted. Columns are
integers without a bound. -/
def sql.upsertEndpointUptime (tx : EndpointUptimes) (excluded : EndpointUptimeRow) :
    EndpointUptimes :=
  match tx with
  | [] => [excluded]
  | row :: rest =>
    if row.endpoint_id = excluded.endpoint_id ∧
        row.hour_unix_timestamp = excluded.hour_unix_timestamp then
      { row with
        total_executions := excluded.total_executions + row.total_executions
        successful_executions := excluded.successful_executions + row.successful_executions
        total_response_time := excluded.total_response_time + row.total_response_time } :: rest
    else row :: sql.upsertEndpointUptime rest excluded

/-- The method `Store.updateEndpointUptime`: the effect of its statement on the table. The
error value of the driver is not part of the embedding. -/
def sql.updateEndpointUptime (tx : EndpointUptimes) (endpointID : Int) (result : Result) :
    EndpointUptimes :=
  let successfulExecutions : Int := if result.Success then 1 else 0
  sql.upsertEndpointUptime tx
    ⟨endpointID, unixTimestampFlooredAtHour result, 1, successfulExecutions,
      durationMilliseconds result.Duration⟩

/-- The row of the table with a given primary key, if any. -/
def sql.findRow (tx : EndpointUptimes) (endpointID hour : Int) : Option EndpointUptimeRow :=
  tx.find? (fun row =>
    decide (row.endpoint_id = endpointID) && decide (row.hour_unix_timestamp = hour))


/-- The uptime percentage over exactly the buckets whose hour timestamp is at least `start`:
the final expression of the percentage functions on the `uint64` sums of those buckets. -/
def windowPercentage (uptime : Uptime) (start : Int) : Float64 :=
  percentageOf
    (sumSuccessful ((mapEntries uptime.HourlyStatistics).filter (atOrAfter start)) % 2 ^ 64)
    (sumTotal ((mapEntries uptime.HourlyStatistics).filter (atOrAfter start)) % 2 ^ 64)

end Gatus

namespace Gatus

/-! ## Rounding to `float64` -/

theorem floor_le_roundHalfEven (x : ℚ) : ⌊x⌋ ≤ roundHalfEven x := by
  unfold roundHalfEven
  split_ifs <;> omega

theorem roundHalfEven_le_floor_succ (x : ℚ) : roundHalfEven x ≤ ⌊x⌋ + 1 := by
  unfold roundHalfEven
  split_ifs <;> omega

theorem roundHalfEven_mono {x y : ℚ} (h : x ≤ y) : roundHalfEven x ≤ roundHalfEven y := by
  have hf : ⌊x⌋ ≤ ⌊y⌋ := Int.floor_mono h
  rcases hf.lt_or_eq with hlt | heq
  · have h1 := roundHalfEven_le_floor_succ x
    have h2 := floor_le_roundHalfEven y
    omega
  · unfold roundHalfEven
    rw [← heq]
    split_ifs <;> first | omega | (exfalso; linarith)

theorem roundHalfEven_intCast (n : ℤ) : roundHalfEven (n : ℚ) = n := by
  simp [roundHalfEven]

theorem ulp_pos (q : ℚ) : 0 < ulp q := by
  unfold ulp
  positivity

theorem zpow_log_le {q : ℚ} (h : 0 < q) : (2 : ℚ) ^ Int.log 2 q ≤ q := by
  have := Int.zpow_log_le_self (b := 2) (by norm_num) h
  simpa using this

theorem lt_zpow_log_succ (q : ℚ) : q < (2 : ℚ) ^ (Int.log 2 q + 1) := by
  have := Int.lt_zpow_succ_log_self (b := 2) (by norm_num) q
  simpa using this

theorem zpow_log_le_roundFloat64 {q : ℚ} (h : 0 < q) :
    (2 : ℚ) ^ Int.log 2 q ≤ roundFloat64 q := by
  have hu := ulp_pos q
  have habs : |q| = q := abs_of_pos h
  have h4 : (2 : ℚ) ^ Int.log 2 q = ((2 ^ 52 : ℤ) : ℚ) * ulp q := by
    unfold ulp
    rw [habs, zpow_sub₀ (by norm_num)]
    push_cast
    field_simp
    ring
  have h1 : ((2 ^ 52 : ℤ) : ℚ) ≤ q / ulp q := by
    rw [le_div_iff₀ hu, ← h4]
    exact zpow_log_le h
  have h2 : (2 ^ 52 : ℤ) ≤ roundHalfEven (q / ulp q) := by
    have := roundHalfEven_mono h1
    rwa [roundHalfEven_intCast] at this
  have h3 : ((2 ^ 52 : ℤ) : ℚ) ≤ (roundHalfEven (q / ulp q) : ℚ) := by exact_mod_cast h2
  rw [h4]
  unfold roundFloat64
  exact mul_le_mul_of_nonneg_right h3 hu.le

theorem roundFloat64_le_zpow_log_succ {q : ℚ} (h : 0 < q) :
    roundFloat64 q ≤ (2 : ℚ) ^ (Int.log 2 q + 1) := by
  have hu := ulp_pos q
  have habs : |q| = q := abs_of_pos h
  have h4 : (2 : ℚ) ^ (Int.log 2 q + 1) = ((2 ^ 53 : ℤ) : ℚ) * ulp q := by
    unfold ulp
    rw [habs, zpow_sub₀ (by norm_num), zpow_add₀ (by norm_num)]
    push_cast
    field_simp
    ring
  have h1 : q / ulp q ≤ ((2 ^ 53 : ℤ) : ℚ) := by
    rw [div_le_iff₀ hu, ← h4]
    exact (lt_zpow_log_succ q).le
  have h2 : roundHalfEven (q / ulp q) ≤ (2 ^ 53 : ℤ) := by
    have := roundHalfEven_mono h1
    rwa [roundHalfEven_intCast] at this
  have h3 : (roundHalfEven (q / ulp q) : ℚ) ≤ ((2 ^ 53 : ℤ) : ℚ) := by exact_mod_cast h2
  rw [h4]
  unfold roundFloat64
  exact mul_le_mul_of_nonneg_right h3 hu.le

theorem roundFloat64_zero : roundFloat64 0 = 0 := by
  simp [roundFloat64, roundHalfEven]

theorem roundFloat64_nonneg {q : ℚ} (h : 0 ≤ q) : 0 ≤ roundFloat64 q := by
  rcases h.lt_or_eq with hpos | h0
  · exact le_trans (by positivity) (zpow_log_le_roundFloat64 hpos)
  · rw [← h0, roundFloat64_zero]

theorem roundFloat64_mono {x y : ℚ} (hx : 0 ≤ x) (h : x ≤ y) :
    roundFloat64 x ≤ roundFloat64 y := by
  rcases hx.lt_or_eq with hpos | h0
  · have hy : 0 < y := lt_of_lt_of_le hpos h
    have hlog : Int.log 2 x ≤ Int.log 2 y := Int.log_mono_right hpos h
    rcases hlog.lt_or_eq with hlt | heq
    · calc roundFloat64 x ≤ (2 : ℚ) ^ (Int.log 2 x + 1) := roundFloat64_le_zpow_log_succ hpos
        _ ≤ (2 : ℚ) ^ Int.log 2 y := zpow_le_zpow_right₀ (by norm_num) (by omega)
        _ ≤ roundFloat64 y := zpow_log_le_roundFloat64 hy
    · have hu : ulp x = ulp y := by
        unfold ulp
        rw [abs_of_pos hpos, abs_of_pos hy, heq]
      unfold roundFloat64
      rw [hu]
      have hdiv : x / ulp y ≤ y / ulp y := div_le_div_of_nonneg_right h (ulp_pos y).le
      have := roundHalfEven_mono hdiv
      have hc : (roundHalfEven (x / ulp y) : ℚ) ≤ (roundHalfEven (y / ulp y) : ℚ) := by
        exact_mod_cast this
      exact mul_le_mul_of_nonneg_right hc (ulp_pos y).le
  · rw [← h0, roundFloat64_zero]
    exact roundFloat64_nonneg (h0 ▸ h)

theorem roundFloat64_dyadic (n : ℕ) (z : ℤ) (hn : n < 2 ^ 53) :
    roundFloat64 ((n : ℚ) * 2 ^ z) = (n : ℚ) * 2 ^ z := by
  rcases Nat.eq_zero_or_pos n with h0 | hpos
  · simp [h0, roundFloat64_zero]
  · have hnq : (0 : ℚ) < n := by exact_mod_cast hpos
    have hq : (0 : ℚ) < (n : ℚ) * 2 ^ z := by positivity
    have hlo := zpow_log_le hq
    have hup : (n : ℚ) * 2 ^ z < 2 ^ (53 + z) := by
      rw [zpow_add₀ (by norm_num)]
      have : (n : ℚ) < 2 ^ (53 : ℤ) := by
        have h53 : ((n : ℕ) : ℚ) < ((2 ^ 53 : ℕ) : ℚ) := by exact_mod_cast hn
        have e53 : ((2 ^ 53 : ℕ) : ℚ) = 2 ^ (53 : ℤ) := by norm_num
        rwa [e53] at h53
      exact mul_lt_mul_of_pos_right this (by positivity)
    have he : Int.log 2 ((n : ℚ) * 2 ^ z) < 53 + z :=
      (zpow_lt_zpow_iff_right₀ (by norm_num : (1 : ℚ) < 2)).mp (lt_of_le_of_lt hlo hup)
    obtain ⟨k, hk⟩ : ∃ k : ℕ, (k : ℤ) = z - Int.log 2 ((n : ℚ) * 2 ^ z) + 52 :=
      ⟨(z - Int.log 2 ((n : ℚ) * 2 ^ z) + 52).toNat, Int.toNat_of_nonneg (by omega)⟩
    have hu : ulp ((n : ℚ) * 2 ^ z) = 2 ^ (z - (k : ℤ)) := by
      unfold ulp
      rw [abs_of_pos hq]
      congr 1
      omega
    have hdiv : (n : ℚ) * 2 ^ z / ulp ((n : ℚ) * 2 ^ z) = (((n * 2 ^ k : ℕ) : ℤ) : ℚ) := by
      rw [hu, zpow_sub₀ (by norm_num), zpow_natCast]
      push_cast
      field_simp
      ring
    unfold roundFloat64
    rw [hdiv, roundHalfEven_intCast, hu, zpow_sub₀ (by norm_num), zpow_natCast]
    push_cast
    field_simp
    ring

theorem roundFloat64_natCast (n : ℕ) (hn : n < 2 ^ 53) : roundFloat64 (n : ℚ) = n := by
  simpa using roundFloat64_dyadic n 0 hn

theorem roundHalfEven_eq_of_near {x : ℚ} {k : ℤ} (h1 : (k : ℚ) - 1 / 2 < x)
    (h2 : x < k + 1 / 2) : roundHalfEven x = k := by
  rcases lt_or_le x (k : ℚ) with hlt | hge
  · have hf : ⌊x⌋ = k - 1 := by
      rw [Int.floor_eq_iff]
      push_cast
      constructor <;> linarith
    unfold roundHalfEven
    rw [hf]
    push_cast
    split_ifs <;> first | omega | (exfalso; linarith)
  · have hf : ⌊x⌋ = k := by
      rw [Int.floor_eq_iff]
      constructor <;> linarith
    unfold roundHalfEven
    rw [hf]
    split_ifs <;> first | omega | (exfalso; linarith)

theorem log_eq_of_bounds {q : ℚ} {e : ℤ} (h1 : (2 : ℚ) ^ e ≤ q) (h2 : q < 2 ^ (e + 1)) :
    Int.log 2 q = e := by
  have hq : 0 < q := lt_of_lt_of_le (by positivity) h1
  have hle : e ≤ Int.log 2 q := by
    apply (Int.zpow_le_iff_le_log (b := 2) (by norm_num) hq).mp
    simpa using h1
  have hlt : Int.log 2 q < e + 1 := by
    apply (Int.lt_zpow_iff_log_lt (b := 2) (by norm_num) hq).mp
    simpa using h2
  omega

theorem roundFloat64_eq {q : ℚ} {e k : ℤ} (h1 : (2 : ℚ) ^ e ≤ q) (h2 : q < 2 ^ (e + 1))
    (h3 : (k : ℚ) - 1 / 2 < q / 2 ^ (e - 52)) (h4 : q / 2 ^ (e - 52) < k + 1 / 2) :
    roundFloat64 q = k * 2 ^ (e - 52) := by
  have hq : 0 < q := lt_of_lt_of_le (by positivity) h1
  have hu : ulp q = 2 ^ (e - 52) := by
    unfold ulp
    rw [abs_of_pos hq, log_eq_of_bounds h1 h2]
  unfold roundFloat64
  rw [hu, roundHalfEven_eq_of_near h3 h4]

theorem fdiv_13_15 :
    fdiv (float64OfUint64 13) (float64OfUint64 15) = 1951559838527215 / 2251799813685248 := by
  have h13 : float64OfUint64 13 = 13 := by
    simpa [float64OfUint64] using roundFloat64_natCast 13 (by norm_num)
  have h15 : float64OfUint64 15 = 15 := by
    simpa [float64OfUint64] using roundFloat64_natCast 15 (by norm_num)
  rw [h13, h15]
  unfold fdiv
  have := roundFloat64_eq (q := 13 / 15) (e := -1) (k := 7806239354108860)
    (by norm_num) (by norm_num) (by norm_num) (by norm_num)
  rw [this]
  norm_num

theorem fmul_13_15_100 :
    fmul (fdiv (float64OfUint64 13) (float64OfUint64 15)) 100 =
      6098624495397547 / 70368744177664 := by
  rw [fdiv_13_15]
  unfold fmul
  have := roundFloat64_eq (q := 1951559838527215 / 2251799813685248 * 100) (e := 6)
    (k := 6098624495397547) (by norm_num) (by norm_num) (by norm_num) (by norm_num)
  rw [this]
  norm_num

/-! ## The accumulation loops -/

theorem sumTotal_cons (e : Int × HourlyUptimeStatistics) (m : HourlyMap) :
    sumTotal (e :: m) = e.2.TotalExecutions + sumTotal m := by
  simp [sumTotal]

theorem sumSuccessful_cons (e : Int × HourlyUptimeStatistics) (m : HourlyMap) :
    sumSuccessful (e :: m) = e.2.SuccessfulExecutions + sumSuccessful m := by
  simp [sumSuccessful]

theorem foldl_coreStep (fromTime toTime : Int) (m : HourlyMap) (a b : Nat) :
    m.foldl (coreStep fromTime toTime) (a % 2 ^ 64, b % 2 ^ 64) =
      ((a + sumTotal (m.filter (inWindow fromTime toTime))) % 2 ^ 64,
        (b + sumSuccessful (m.filter (inWindow fromTime toTime))) % 2 ^ 64) := by
  induction m generalizing a b with
  | nil => simp [sumTotal, sumSuccessful]
  | cons e m ih =>
    by_cases h : fromTime ≤ e.1 ∧ e.1 ≤ toTime
    · have hw : inWindow fromTime toTime e = true := by simp [inWindow, h.1, h.2]
      have hs : coreStep fromTime toTime (a % 2 ^ 64, b % 2 ^ 64) e =
          ((a + e.2.TotalExecutions) % 2 ^ 64, (b + e.2.SuccessfulExecutions) % 2 ^ 64) := by
        simp [coreStep, h.1, h.2, Nat.mod_add_mod]
      rw [List.foldl_cons, hs, ih, List.filter_cons_of_pos hw, sumTotal_cons,
        sumSuccessful_cons, Nat.add_assoc, Nat.add_assoc]
    · have hw : inWindow fromTime toTime e = false := by
        simp only [inWindow, Bool.and_eq_false_imp, decide_eq_true_eq, decide_eq_false_iff_not]
        intro h1 h2
        exact h ⟨h1, h2⟩
      have hs : coreStep fromTime toTime (a % 2 ^ 64, b % 2 ^ 64) e =
          (a % 2 ^ 64, b % 2 ^ 64) := by
        simp only [coreStep, ge_iff_le]
        rw [if_neg h]
      rw [List.foldl_cons, hs, ih, List.filter_cons_of_neg (by simp [hw])]

theorem foldl_memoryStep (endTimestamp : Int) (m : HourlyMap) (a b : Nat) :
    m.foldl (memoryStep endTimestamp) (a % 2 ^ 64, b % 2 ^ 64) =
      ((a + sumSuccessful (m.filter (atOrAfter endTimestamp))) % 2 ^ 64,
        (b + sumTotal (m.filter (atOrAfter endTimestamp))) % 2 ^ 64) := by
  induction m generalizing a b with
  | nil => simp [sumTotal, sumSuccessful]
  | cons e m ih =>
    by_cases h : endTimestamp ≤ e.1
    · have hw : atOrAfter endTimestamp e = true := by simp [atOrAfter, h]
      have hs : memoryStep endTimestamp (a % 2 ^ 64, b % 2 ^ 64) e =
          ((a + e.2.SuccessfulExecutions) % 2 ^ 64, (b + e.2.TotalExecutions) % 2 ^ 64) := by
        simp [memoryStep, h, Nat.mod_add_mod]
      rw [List.foldl_cons, hs, ih, List.filter_cons_of_pos hw, sumTotal_cons,
        sumSuccessful_cons, Nat.add_assoc, Nat.add_assoc]
    · have hw : atOrAfter endTimestamp e = false := by simp [atOrAfter, h]
      have hs : memoryStep endTimestamp (a % 2 ^ 64, b % 2 ^ 64) e =
          (a % 2 ^ 64, b % 2 ^ 64) := by
        simp only [memoryStep, ge_iff_le]
        rw [if_neg h]
      rw [List.foldl_cons, hs, ih, List.filter_cons_of_neg (by simp [hw])]

/-- The percentage of the core package in terms of the exact sums over the window. -/
theorem core_calculate_eq (u : Uptime) (fromTime toTime : Int) :
    core.calculateUptimePercentage u fromTime toTime =
      percentageOf
        (sumSuccessful ((mapEntries u.HourlyStatistics).filter (inWindow fromTime toTime))
          % 2 ^ 64)
        (sumTotal ((mapEntries u.HourlyStatistics).filter (inWindow fromTime toTime))
          % 2 ^ 64) := by
  have h := foldl_coreStep fromTime toTime (mapEntries u.HourlyStatistics) 0 0
  simp only [Nat.zero_mod, Nat.zero_add] at h
  simp only [core.calculateUptimePercentage, h]

/-- The percentage of the memory package in terms of the exact sums from the start time on. -/
theorem memory_calculate_eq (u : Uptime) (endTime : Time) :
    memory.calculateUptimePercentage u endTime =
      percentageOf
        (sumSuccessful ((mapEntries u.HourlyStatistics).filter (atOrAfter (timeUnix endTime)))
          % 2 ^ 64)
        (sumTotal ((mapEntries u.HourlyStatistics).filter (atOrAfter (timeUnix endTime)))
          % 2 ^ 64) := by
  have h := foldl_memoryStep (timeUnix endTime) (mapEntries u.HourlyStatistics) 0 0
  simp only [Nat.zero_mod, Nat.zero_add] at h
  simp only [memory.calculateUptimePercentage, h]


/-! ## Claim C1 -/

/-- Claim C1: when the buckets whose hour timestamp lies in `[fromTime, toTime]` hold no
executions (their `TotalExecutions` sum to 0, as they do when no bucket lies in the window or
the map is empty or nil), the percentage of the core package is exactly 100; likewise the
percentage of the memory package is exactly 100 when the buckets at or after its start time hold
no executions. -/
theorem c1_no_executions_returns_100 (u : Uptime) (fromTime toTime : Int) (endTime : Time) :
    (sumTotal ((mapEntries u.HourlyStatistics).filter (inWindow fromTime toTime)) = 0 →
      core.calculateUptimePercentage u fromTime toTime = 100) ∧
    ((mapEntries u.HourlyStatistics).filter (inWindow fromTime toTime) = [] →
      core.calculateUptimePercentage u fromTime toTime = 100) ∧
    (u.HourlyStatistics = none ∨ u.HourlyStatistics = some [] →
      core.calculateUptimePercentage u fromTime toTime = 100) ∧
    (sumTotal ((mapEntries u.HourlyStatistics).filter (atOrAfter (timeUnix endTime))) = 0 →
      memory.calculateUptimePercentage u endTime = 100) := by
  refine ⟨?_, ?_, ?_, ?_⟩
  · intro h
    rw [core_calculate_eq, h]
    simp [percentageOf]
  · intro h
    rw [core_calculate_eq, h]
    simp [percentageOf, sumTotal]
  · intro h
    rw [core_calculate_eq]
    rcases h with h | h <;> simp [h, mapEntries, percentageOf, sumTotal]
  · intro h
    rw [memory_calculate_eq, h]
    simp [percentageOf]

/-- Witness of claim C1: a map whose only bucket with executions lies outside the window, and
the nil map. -/
theorem c1_witness :
    core.calculateUptimePercentage
        ⟨some [(7200, ⟨4, 3, 10⟩), (3600, ⟨0, 0, 0⟩)], 0, 0, 0, 0, 0⟩ 0 3600 = 100 ∧
      core.calculateUptimePercentage
        ⟨some [(7200, ⟨4, 3, 10⟩)], 0, 0, 0, 0, 0⟩ 0 3600 = 100 ∧
      core.calculateUptimePercentage ⟨none, 0, 0, 0, 0, 0⟩ 0 3600 = 100 ∧
      memory.calculateUptimePercentage
        ⟨some [(-7200, ⟨4, 3, 10⟩)], 0, 0, 0, 0, 0⟩ 0 = 100 :=
  ⟨(c1_no_executions_returns_100 _ 0 3600 0).1 (by decide),
    (c1_no_executions_returns_100 _ 0 3600 0).2.1 (by decide),
    (c1_no_executions_returns_100 _ 0 3600 0).2.2.1 (Or.inl rfl),
    (c1_no_executions_returns_100 _ 0 3600 0).2.2.2 (by decide)⟩

theorem float64OfUint64_exact (n : ℕ) (hn : n < 2 ^ 53) : float64OfUint64 n = n :=
  roundFloat64_natCast n hn

theorem sumSuccessful_le_sumTotal (m : HourlyMap) (h : ∀ e ∈ m, bucketInvariant e.2) :
    sumSuccessful m ≤ sumTotal m := by
  induction m with
  | nil => simp [sumSuccessful, sumTotal]
  | cons e m ih =>
    rw [sumSuccessful_cons, sumTotal_cons]
    have h1 : e.2.SuccessfulExecutions ≤ e.2.TotalExecutions := h e (List.mem_cons_self e m)
    have h2 := ih (fun x hx => h x (List.mem_cons_of_mem e hx))
    omega

theorem percentageOf_bounds (s t : Nat) (h : s ≤ t) :
    0 ≤ percentageOf s t ∧ percentageOf s t ≤ 100 := by
  unfold percentageOf
  split_ifs with ht
  · norm_num
  · have hs0 : (0 : ℚ) ≤ (s : ℚ) := Nat.cast_nonneg s
    have hst : (s : ℚ) ≤ (t : ℚ) := by exact_mod_cast h
    have h1 : (1 : ℚ) ≤ (t : ℚ) := by exact_mod_cast Nat.one_le_iff_ne_zero.mpr ht
    have hone : roundFloat64 1 = 1 := by simpa using roundFloat64_natCast 1 (by norm_num)
    have hhundred : roundFloat64 100 = 100 := by
      simpa using roundFloat64_natCast 100 (by norm_num)
    have hfs : 0 ≤ float64OfUint64 s := roundFloat64_nonneg hs0
    have hfst : float64OfUint64 s ≤ float64OfUint64 t := roundFloat64_mono hs0 hst
    have hft : 1 ≤ float64OfUint64 t := by
      have := roundFloat64_mono (by norm_num : (0 : ℚ) ≤ 1) h1
      rwa [hone] at this
    have hftpos : 0 < float64OfUint64 t := lt_of_lt_of_le one_pos hft
    have hq0 : 0 ≤ float64OfUint64 s / float64OfUint64 t := div_nonneg hfs hftpos.le
    have hq1 : float64OfUint64 s / float64OfUint64 t ≤ 1 := (div_le_one hftpos).mpr hfst
    have hd0 : 0 ≤ fdiv (float64OfUint64 s) (float64OfUint64 t) := roundFloat64_nonneg hq0
    have hd1 : fdiv (float64OfUint64 s) (float64OfUint64 t) ≤ 1 := by
      have := roundFloat64_mono hq0 hq1
      rwa [hone] at this
    have hm0 : 0 ≤ fdiv (float64OfUint64 s) (float64OfUint64 t) * 100 := by positivity
    have hm1 : fdiv (float64OfUint64 s) (float64OfUint64 t) * 100 ≤ 100 := by linarith
    constructor
    · exact roundFloat64_nonneg hm0
    · have := roundFloat64_mono hm0 hm1
      rwa [hhundred] at this

/-! ## Claim C2 -/

/-- Claim C2: with `T` and `S` the sums of `TotalExecutions` and `SuccessfulExecutions` over
exactly the buckets with `fromTime <= hourTimestamp <= toTime`, both ends included, and the sums
taken as the code takes them, in `uint64`, the percentage of the core package is
`float64(S) / float64(T) * 100` when `T` is not 0; when neither sum reaches `2 ^ 64` they are the
exact sums. -/
theorem c2_percentage_over_inclusive_window (u : Uptime) (fromTime toTime : Int) :
    (∀ e, inWindow fromTime toTime e = true ↔ fromTime ≤ e.1 ∧ e.1 ≤ toTime) ∧
    (sumTotal ((mapEntries u.HourlyStatistics).filter (inWindow fromTime toTime)) % 2 ^ 64 ≠ 0 →
      core.calculateUptimePercentage u fromTime toTime =
        fmul (fdiv
          (float64OfUint64
            (sumSuccessful ((mapEntries u.HourlyStatistics).filter (inWindow fromTime toTime))
              % 2 ^ 64))
          (float64OfUint64
            (sumTotal ((mapEntries u.HourlyStatistics).filter (inWindow fromTime toTime))
              % 2 ^ 64))) 100) ∧
    (sumTotal ((mapEntries u.HourlyStatistics).filter (inWindow fromTime toTime)) < 2 ^ 64 →
      sumSuccessful ((mapEntries u.HourlyStatistics).filter (inWindow fromTime toTime))
        < 2 ^ 64 →
      sumTotal ((mapEntries u.HourlyStatistics).filter (inWindow fromTime toTime)) ≠ 0 →
      core.calculateUptimePercentage u fromTime toTime =
        fmul (fdiv
          (float64OfUint64
            (sumSuccessful ((mapEntries u.HourlyStatistics).filter (inWindow fromTime toTime))))
          (float64OfUint64
            (sumTotal ((mapEntries u.HourlyStatistics).filter (inWindow fromTime toTime)))))
          100) := by
  refine ⟨?_, ?_, ?_⟩
  · intro e
    simp [inWindow]
  · intro h
    rw [core_calculate_eq, percentageOf, if_neg h]
  · intro hT hS h
    rw [core_calculate_eq, Nat.mod_eq_of_lt hT, Nat.mod_eq_of_lt hS, percentageOf, if_neg h]

/-- Witness of claim C2: buckets of 10 executions with 8 successes and of 5 executions with 5
successes, keyed exactly `fromTime` and exactly `toTime`, next to buckets keyed `fromTime - 1`
and `toTime + 1`; the result is `13 / 15 * 100` in `float64`, about 86.67. -/
theorem c2_witness :
    core.calculateUptimePercentage
        ⟨some [(3599, ⟨100, 0, 0⟩), (3600, ⟨10, 8, 0⟩), (7200, ⟨5, 5, 0⟩), (7201, ⟨100, 0, 0⟩)],
          0, 0, 0, 0, 0⟩ 3600 7200 =
      fmul (fdiv (float64OfUint64 13) (float64OfUint64 15)) 100 ∧
    fmul (fdiv (float64OfUint64 13) (float64OfUint64 15)) 100 =
      6098624495397547 / 70368744177664 :=
  ⟨(c2_percentage_over_inclusive_window
      ⟨some [(3599, ⟨100, 0, 0⟩), (3600, ⟨10, 8, 0⟩), (7200, ⟨5, 5, 0⟩), (7201, ⟨100, 0, 0⟩)],
        0, 0, 0, 0, 0⟩ 3600 7200).2.2 (by decide) (by decide) (by decide),
    fmul_13_15_100⟩

/-! ## Claim C3 -/

/-- Claim C3, amended: when every bucket of the window satisfies
`SuccessfulExecutions <= TotalExecutions` and the `TotalExecutions` of the window sum to less
than `2 ^ 64`, the percentage of the core package lies in the closed interval `[0, 100]`. -/
theorem c3_percentage_within_bounds (u : Uptime) (fromTime toTime : Int)
    (hinv : ∀ e ∈ mapEntries u.HourlyStatistics,
      inWindow fromTime toTime e = true → bucketInvariant e.2)
    (hsum : sumTotal ((mapEntries u.HourlyStatistics).filter (inWindow fromTime toTime))
      < 2 ^ 64) :
    0 ≤ core.calculateUptimePercentage u fromTime toTime ∧
      core.calculateUptimePercentage u fromTime toTime ≤ 100 := by
  have hle : sumSuccessful ((mapEntries u.HourlyStatistics).filter (inWindow fromTime toTime)) ≤
      sumTotal ((mapEntries u.HourlyStatistics).filter (inWindow fromTime toTime)) := by
    apply sumSuccessful_le_sumTotal
    intro e he
    rw [List.mem_filter] at he
    exact hinv e he.1 he.2
  rw [core_calculate_eq, Nat.mod_eq_of_lt hsum, Nat.mod_eq_of_lt (lt_of_le_of_lt hle hsum)]
  exact percentageOf_bounds _ _ hle

/-- Witness of claim C3 as amended: two buckets in the window that satisfy the invariant. -/
theorem c3_witness :
    0 ≤ core.calculateUptimePercentage
        ⟨some [(3600, ⟨10, 8, 0⟩), (7200, ⟨5, 5, 0⟩)], 0, 0, 0, 0, 0⟩ 3600 7200 ∧
      core.calculateUptimePercentage
        ⟨some [(3600, ⟨10, 8, 0⟩), (7200, ⟨5, 5, 0⟩)], 0, 0, 0, 0, 0⟩ 3600 7200 ≤ 100 :=
  c3_percentage_within_bounds _ 3600 7200
    (by
      intro e he _
      simp only [mapEntries, Option.getD_some, List.mem_cons, List.mem_singleton,
        List.not_mem_nil, or_false] at he
      rcases he with rfl | rfl <;> simp [bucketInvariant])
    (by decide)

/-- Counterexample to claim C3 as stated: a bucket with 1 execution and 2 successes gives the
percentage 200. -/
theorem c3_counterexample :
    core.calculateUptimePercentage ⟨some [(0, ⟨1, 2, 0⟩)], 0, 0, 0, 0, 0⟩ 0 0 = 200 ∧
      ¬ (core.calculateUptimePercentage ⟨some [(0, ⟨1, 2, 0⟩)], 0, 0, 0, 0, 0⟩ 0 0 ≤ 100) := by
  have h : core.calculateUptimePercentage ⟨some [(0, ⟨1, 2, 0⟩)], 0, 0, 0, 0, 0⟩ 0 0 = 200 := by
    rw [core_calculate_eq]
    have hS : sumSuccessful
        ((mapEntries (some [((0 : Int), (⟨1, 2, 0⟩ : HourlyUptimeStatistics))])).filter
          (inWindow 0 0)) % 2 ^ 64 = 2 := by decide
    have hT : sumTotal
        ((mapEntries (some [((0 : Int), (⟨1, 2, 0⟩ : HourlyUptimeStatistics))])).filter
          (inWindow 0 0)) % 2 ^ 64 = 1 := by decide
    rw [hS, hT]
    have h2 : roundFloat64 2 = 2 := by simpa using roundFloat64_natCast 2 (by norm_num)
    have h200 : roundFloat64 200 = 200 := by simpa using roundFloat64_natCast 200 (by norm_num)
    have h1 : roundFloat64 1 = 1 := by simpa using roundFloat64_natCast 1 (by norm_num)
    simp [percentageOf, fmul, fdiv, float64OfUint64, h1, h2]
    norm_num [h200]
  exact ⟨h, by rw [h]; norm_num⟩

/-! ## The cleanup loop -/

theorem foldl_delete_eq_filter (threshold : Int) (ks : List Int) (acc : HourlyMap) :
    ks.foldl (fun acc timestamp =>
        if timestamp < threshold then mapDelete acc timestamp else acc) acc =
      acc.filter (fun e => !(decide (e.1 < threshold) && decide (e.1 ∈ ks))) := by
  induction ks generalizing acc with
  | nil => simp
  | cons k ks ih =>
    rw [List.foldl_cons, ih]
    by_cases hk : k < threshold
    · rw [if_pos hk, mapDelete, List.filter_filter]
      apply List.filter_congr
      intro e _
      by_cases hek : e.1 = k
      · simp [hek, hk]
      · simp [hek]
    · rw [if_neg hk]
      apply List.filter_congr
      intro e _
      by_cases hek : e.1 = k
      · simp [hek, hk]
      · simp [hek]

theorem cleanupLoop_eq_filter (threshold : Int) (m : HourlyMap) :
    cleanupLoop threshold m = m.filter (fun e => decide (threshold ≤ e.1)) := by
  rw [cleanupLoop, foldl_delete_eq_filter]
  apply List.filter_congr
  intro e he
  have hmem : e.1 ∈ m.map Prod.fst := List.mem_map_of_mem Prod.fst he
  by_cases h : e.1 < threshold
  · simp [h, hmem]
  · simp [h, not_lt.mp h]

theorem cleanupOldStatistics_eq (uptime : Uptime) (duration : Duration) (now : Time) :
    memory.cleanupOldStatistics uptime duration now =
      { uptime with HourlyStatistics := uptime.HourlyStatistics.map (fun m =>
          m.filter (fun e => decide (timeUnix (timeAdd now (negDuration duration)) ≤ e.1))) } := by
  unfold memory.cleanupOldStatistics
  cases uptime.HourlyStatistics with
  | none => rfl
  | some m => simp [cleanupLoop_eq_filter]

theorem negDuration_of_gt (d : Int) (h1 : -2 ^ 63 < d) (h2 : d < 2 ^ 63) :
    negDuration d = -d := by
  show ((-d + 2 ^ 63) % 2 ^ 64 - 2 ^ 63 : Int) = -d
  omega

theorem cleanup_threshold_eq (d : Int) (now : Int) (h1 : -2 ^ 63 < d) (h2 : d < 2 ^ 63) :
    timeUnix (timeAdd now (negDuration d)) = (now - d) / 1000000000 := by
  rw [negDuration_of_gt d h1 h2]
  unfold timeUnix timeAdd Second
  rw [Int.sub_eq_add_neg]

theorem mapLookup_filter_ge (threshold : Int) (m : HourlyMap) (k : Int) :
    mapLookup (m.filter (fun e => decide (threshold ≤ e.1))) k =
      if k < threshold then none else mapLookup m k := by
  induction m with
  | nil => simp [mapLookup]
  | cons e m ih =>
    by_cases he : threshold ≤ e.1
    · rw [List.filter_cons_of_pos (by simpa using he)]
      by_cases hk : e.1 = k
      · have : ¬ k < threshold := by omega
        simp [mapLookup, hk, this]
      · simp [mapLookup, hk, ih]
    · rw [List.filter_cons_of_neg (by simpa using he), ih]
      by_cases hk : e.1 = k
      · have : k < threshold := by omega
        simp [this]
      · simp [mapLookup, hk]

/-! ## Claim C8 -/

/-- Claim C8: after `cleanupOldStatistics(uptime, d)` at time `now` the map contains exactly
the buckets of the input whose hour timestamp is at least the Unix seconds of `now.Add(-d)`,
in their order and with unchanged counters, the other buckets are removed and no other field
changes; for every `d` above the least `int64` that threshold is `now - d` in whole seconds. -/
theorem c8_cleanup_keeps_exactly_recent_buckets (uptime : Uptime) (d : Int) (now : Int) :
    (memory.cleanupOldStatistics uptime d now =
      { uptime with HourlyStatistics := uptime.HourlyStatistics.map (fun m =>
          m.filter (fun e => decide (timeUnix (timeAdd now (negDuration d)) ≤ e.1))) }) ∧
    (∀ k, mapLookup (mapEntries (memory.cleanupOldStatistics uptime d now).HourlyStatistics) k =
      if k < timeUnix (timeAdd now (negDuration d)) then none
      else mapLookup (mapEntries uptime.HourlyStatistics) k) ∧
    (-2 ^ 63 < d → d < 2 ^ 63 →
      timeUnix (timeAdd now (negDuration d)) = (now - d) / 1000000000) := by
  refine ⟨cleanupOldStatistics_eq uptime d now, ?_, cleanup_threshold_eq d now⟩
  intro k
  rw [cleanupOldStatistics_eq]
  cases uptime.HourlyStatistics with
  | none => simp [mapEntries, mapLookup]
  | some m => simpa [mapEntries] using mapLookup_filter_ge _ m k

/-- Witness of claim C8: a 30-day pass 60 days after the epoch removes the bucket of hour 0 and
keeps the bucket keyed exactly at the threshold. -/
theorem c8_witness :
    (memory.cleanupOldStatistics
        ⟨some [(0, ⟨3, 2, 10⟩), (2592000, ⟨1, 1, 5⟩)], 0, 0, 0, 0, 0⟩ thirtyDays
        5184000000000000).HourlyStatistics = some [(2592000, ⟨1, 1, 5⟩)] ∧
      timeUnix (timeAdd 5184000000000000 (negDuration thirtyDays)) =
        (5184000000000000 - thirtyDays) / 1000000000 :=
  ⟨(congrArg Uptime.HourlyStatistics
      (c8_cleanup_keeps_exactly_recent_buckets
        ⟨some [(0, ⟨3, 2, 10⟩), (2592000, ⟨1, 1, 5⟩)], 0, 0, 0, 0, 0⟩ thirtyDays
        5184000000000000).1).trans (by decide),
    (c8_cleanup_keeps_exactly_recent_buckets
      ⟨some [(0, ⟨3, 2, 10⟩), (2592000, ⟨1, 1, 5⟩)], 0, 0, 0, 0, 0⟩ thirtyDays
      5184000000000000).2.2 (by decide) (by decide)⟩

/-! ## The cleanup passes of ingest -/

theorem negDuration_thirtyDays : negDuration thirtyDays = -thirtyDays := by decide

theorem negDuration_sixtyDays : negDuration sixtyDays = -sixtyDays := by decide

theorem negDuration_ninetyDays : negDuration ninetyDays = -ninetyDays := by decide

theorem negDuration_oneHundredTwentyDays :
    negDuration oneHundredTwentyDays = -oneHundredTwentyDays := by decide

theorem threshold_sixty_le_thirty (now : Int) :
    timeUnix (timeAdd now (negDuration sixtyDays)) ≤
      timeUnix (timeAdd now (negDuration thirtyDays)) := by
  rw [negDuration_sixtyDays, negDuration_thirtyDays]
  show (now + -(60 * 24 * (3600 * 1000000000))) / 1000000000 ≤
    (now + -(30 * 24 * (3600 * 1000000000))) / 1000000000
  omega

theorem threshold_ninety_le_thirty (now : Int) :
    timeUnix (timeAdd now (negDuration ninetyDays)) ≤
      timeUnix (timeAdd now (negDuration thirtyDays)) := by
  rw [negDuration_ninetyDays, negDuration_thirtyDays]
  show (now + -(90 * 24 * (3600 * 1000000000))) / 1000000000 ≤
    (now + -(30 * 24 * (3600 * 1000000000))) / 1000000000
  omega

theorem threshold_oneHundredTwenty_le_thirty (now : Int) :
    timeUnix (timeAdd now (negDuration oneHundredTwentyDays)) ≤
      timeUnix (timeAdd now (negDuration thirtyDays)) := by
  rw [negDuration_oneHundredTwentyDays, negDuration_thirtyDays]
  show (now + -(120 * 24 * (3600 * 1000000000))) / 1000000000 ≤
    (now + -(30 * 24 * (3600 * 1000000000))) / 1000000000
  omega

theorem filter_ge_of_filter_ge (a b : Int) (h : a ≤ b) (m : HourlyMap) :
    (m.filter (fun e => decide (b ≤ e.1))).filter (fun e => decide (a ≤ e.1)) =
      m.filter (fun e => decide (b ≤ e.1)) := by
  rw [List.filter_filter]
  apply List.filter_congr
  intro e _
  by_cases hb : b ≤ e.1
  · have : a ≤ e.1 := le_trans h hb
    simp [hb, this]
  · simp [hb]

/-- A pass with a threshold at most the one of an earlier pass deletes nothing. -/
theorem cleanup_after_cleanup (uptime : Uptime) (d1 d2 : Int) (now : Int)
    (h : timeUnix (timeAdd now (negDuration d2)) ≤ timeUnix (timeAdd now (negDuration d1))) :
    memory.cleanupOldStatistics (memory.cleanupOldStatistics uptime d1 now) d2 now =
      memory.cleanupOldStatistics uptime d1 now := by
  rw [cleanupOldStatistics_eq (memory.cleanupOldStatistics uptime d1 now) d2 now,
    cleanupOldStatistics_eq uptime d1 now]
  cases hm : uptime.HourlyStatistics with
  | none => rfl
  | some m => simp [filter_ge_of_filter_ge _ _ h]

/-! ## Claim C7 -/

/-- Claim C7: with one fixed reading `now` of the clock, the four cleanup passes of ingest (30,
60, 90, then 120 days) leave exactly the state of a single 30-day pass of
`cleanupOldStatistics`: the 60-, 90- and 120-day passes delete nothing. -/
theorem c7_four_passes_equal_thirty_day_pass (uptime : Uptime) (now : Int) :
    cleanupPasses uptime (fun _ => now) = memory.cleanupOldStatistics uptime thirtyDays now ∧
    memory.cleanupOldStatistics (memory.cleanupOldStatistics uptime thirtyDays now)
      sixtyDays now = memory.cleanupOldStatistics uptime thirtyDays now ∧
    memory.cleanupOldStatistics (memory.cleanupOldStatistics uptime thirtyDays now)
      ninetyDays now = memory.cleanupOldStatistics uptime thirtyDays now ∧
    memory.cleanupOldStatistics (memory.cleanupOldStatistics uptime thirtyDays now)
      oneHundredTwentyDays now = memory.cleanupOldStatistics uptime thirtyDays now := by
  have h60 := cleanup_after_cleanup uptime thirtyDays sixtyDays now
    (threshold_sixty_le_thirty now)
  have h90 := cleanup_after_cleanup uptime thirtyDays ninetyDays now
    (threshold_ninety_le_thirty now)
  have h120 := cleanup_after_cleanup uptime thirtyDays oneHundredTwentyDays now
    (threshold_oneHundredTwenty_le_thirty now)
  refine ⟨?_, h60, h90, h120⟩
  unfold cleanupPasses
  rw [h60, h90, h120]

/-! ## Ingest -/

theorem mapLookup_mapStore (m : HourlyMap) (k : Int) (v : HourlyUptimeStatistics) :
    mapLookup (mapStore m k v) k = some v := by
  induction m with
  | nil => simp [mapStore, mapLookup]
  | cons e m ih =>
    by_cases h : e.1 = k
    · simp [mapStore, mapLookup, h]
    · simp [mapStore, mapLookup, h, ih]

theorem mem_mapStore (m : HourlyMap) (k : Int) (v : HourlyUptimeStatistics)
    (e : Int × HourlyUptimeStatistics) (he : e ∈ mapStore m k v) : e ∈ m ∨ e = (k, v) := by
  induction m with
  | nil =>
    simp only [mapStore, List.mem_singleton] at he
    exact Or.inr he
  | cons x m ih =>
    by_cases h : x.1 = k
    · simp only [mapStore, h, if_true, List.mem_cons] at he
      rcases he with he | he
      · exact Or.inr he
      · exact Or.inl (List.mem_cons_of_mem x he)
    · simp only [mapStore, h, if_false, List.mem_cons] at he
      rcases he with he | he
      · exact Or.inl (he ▸ List.mem_cons_self x m)
      · rcases ih he with h1 | h1
        · exact Or.inl (List.mem_cons_of_mem x h1)
        · exact Or.inr h1

theorem mem_of_mapLookup (m : HourlyMap) (k : Int) (s : HourlyUptimeStatistics)
    (h : mapLookup m k = some s) : (k, s) ∈ m := by
  induction m with
  | nil => simp [mapLookup] at h
  | cons e m ih =>
    by_cases hk : e.1 = k
    · simp only [mapLookup, hk, if_true, Option.some.injEq] at h
      have : e = (k, s) := Prod.ext hk h
      rw [this]
      exact List.mem_cons_self _ _
    · simp only [mapLookup, hk, if_false] at h
      exact List.mem_cons_of_mem e (ih h)

/-- The buckets after `processUptimeAfterResult`: the map with the bucket of the hour
written back, filtered by the four cleanup thresholds. -/
theorem processUptimeAfterResult_hourly (uptime : Uptime) (result : Result)
    (now : Nat → Time) :
    (memory.processUptimeAfterResult uptime result now).HourlyStatistics =
      some (((((mapStore (mapEntries uptime.HourlyStatistics)
          (unixTimestampFlooredAtHour result)
          (recordResult
            ((mapLookup (mapEntries uptime.HourlyStatistics)
              (unixTimestampFlooredAtHour result)).getD ⟨0, 0, 0⟩) result)).filter
        (fun e => decide (timeUnix (timeAdd (now 0) (negDuration thirtyDays)) ≤ e.1))).filter
        (fun e => decide (timeUnix (timeAdd (now 1) (negDuration sixtyDays)) ≤ e.1))).filter
        (fun e => decide (timeUnix (timeAdd (now 2) (negDuration ninetyDays)) ≤ e.1))).filter
        (fun e => decide
          (timeUnix (timeAdd (now 3) (negDuration oneHundredTwentyDays)) ≤ e.1))) := by
  simp only [memory.processUptimeAfterResult, memory.updateUptimePercentages, cleanupPasses,
    cleanupOldStatistics_eq, upsertBucket, Option.map_some']

/-- The bucket of the hour of the result after `processUptimeAfterResult`, for every state,
result and clock: deleted when a cleanup pass has its threshold above the key, and otherwise
the old counters with the three updates of the ingest. -/
theorem lookup_own_bucket_after_ingest (uptime : Uptime) (result : Result)
    (now : Nat → Time) :
    mapLookup (mapEntries (memory.processUptimeAfterResult uptime result now).HourlyStatistics)
        (unixTimestampFlooredAtHour result) =
      if unixTimestampFlooredAtHour result < timeUnix (timeAdd (now 0) (negDuration thirtyDays))
          ∨ unixTimestampFlooredAtHour result
            < timeUnix (timeAdd (now 1) (negDuration sixtyDays))
          ∨ unixTimestampFlooredAtHour result
            < timeUnix (timeAdd (now 2) (negDuration ninetyDays))
          ∨ unixTimestampFlooredAtHour result
            < timeUnix (timeAdd (now 3) (negDuration oneHundredTwentyDays)) then none
      else some
        { TotalExecutions :=
            (((mapLookup (mapEntries uptime.HourlyStatistics)
              (unixTimestampFlooredAtHour result)).getD ⟨0, 0, 0⟩).TotalExecutions + 1) % 2 ^ 64
          SuccessfulExecutions :=
            if result.Success then
              (((mapLookup (mapEntries uptime.HourlyStatistics)
                (unixTimestampFlooredAtHour result)).getD ⟨0, 0, 0⟩).SuccessfulExecutions + 1)
                % 2 ^ 64
            else
              ((mapLookup (mapEntries uptime.HourlyStatistics)
                (unixTimestampFlooredAtHour result)).getD ⟨0, 0, 0⟩).SuccessfulExecutions
          TotalExecutionsResponseTime :=
            (((mapLookup (mapEntries uptime.HourlyStatistics)
              (unixTimestampFlooredAtHour result)).getD
                ⟨0, 0, 0⟩).TotalExecutionsResponseTime
              + toUint64 (durationMilliseconds result.Duration)) % 2 ^ 64 } := by
  rw [processUptimeAfterResult_hourly]
  simp only [mapEntries, Option.getD_some, mapLookup_filter_ge, mapLookup_mapStore]
  generalize unixTimestampFlooredAtHour result = key
  generalize (mapLookup (uptime.HourlyStatistics.getD []) key).getD ⟨0, 0, 0⟩ = old
  have hrec : recordResult old result =
      { TotalExecutions := (old.TotalExecutions + 1) % 2 ^ 64
        SuccessfulExecutions :=
          if result.Success then (old.SuccessfulExecutions + 1) % 2 ^ 64
          else old.SuccessfulExecutions
        TotalExecutionsResponseTime :=
          (old.TotalExecutionsResponseTime
            + toUint64 (durationMilliseconds result.Duration)) % 2 ^ 64 } := by
    unfold recordResult
    cases result.Success <;> simp
  rw [hrec]
  split_ifs <;> first | rfl | (exfalso; omega)

/-! ## Claim C5 -/

/-- Claim C5, amended: after `processUptimeAfterResult(uptime, result)` the bucket keyed by the
hour-floored timestamp of the result is absent when that key is below `now - 120 days` in Unix
seconds at the 120-day cleanup pass; when the key is at or above `now - 30 days` in Unix
seconds at each of the four cleanup passes, the bucket exists and its counters are the
counters it had before (all zero if it was absent) with `TotalExecutions` increased by 1,
`SuccessfulExecutions` increased by 1 if and only if `result.Success`, and
`TotalExecutionsResponseTime` increased by `uint64` of the duration in milliseconds, all in
`uint64` arithmetic. -/
theorem c5_ingest_updates_bucket_of_the_hour (uptime : Uptime) (result : Result)
    (now : Nat → Time) :
    (unixTimestampFlooredAtHour result
        < timeUnix (timeAdd (now 3) (negDuration oneHundredTwentyDays)) →
      mapLookup
        (mapEntries (memory.processUptimeAfterResult uptime result now).HourlyStatistics)
        (unixTimestampFlooredAtHour result) = none) ∧
    (timeUnix (timeAdd (now 0) (negDuration thirtyDays)) ≤ unixTimestampFlooredAtHour result →
      timeUnix (timeAdd (now 1) (negDuration thirtyDays)) ≤ unixTimestampFlooredAtHour result →
      timeUnix (timeAdd (now 2) (negDuration thirtyDays)) ≤ unixTimestampFlooredAtHour result →
      timeUnix (timeAdd (now 3) (negDuration thirtyDays)) ≤ unixTimestampFlooredAtHour result →
      mapLookup
          (mapEntries (memory.processUptimeAfterResult uptime result now).HourlyStatistics)
          (unixTimestampFlooredAtHour result) =
        some
          { TotalExecutions :=
              (((mapLookup (mapEntries uptime.HourlyStatistics)
                (unixTimestampFlooredAtHour result)).getD ⟨0, 0, 0⟩).TotalExecutions + 1)
                % 2 ^ 64
            SuccessfulExecutions :=
              if result.Success then
                (((mapLookup (mapEntries uptime.HourlyStatistics)
                  (unixTimestampFlooredAtHour result)).getD ⟨0, 0, 0⟩).SuccessfulExecutions + 1)
                  % 2 ^ 64
              else
                ((mapLookup (mapEntries uptime.HourlyStatistics)
                  (unixTimestampFlooredAtHour result)).getD ⟨0, 0, 0⟩).SuccessfulExecutions
            TotalExecutionsResponseTime :=
              (((mapLookup (mapEntries uptime.HourlyStatistics)
                (unixTimestampFlooredAtHour result)).getD
                  ⟨0, 0, 0⟩).TotalExecutionsResponseTime
                + toUint64 (durationMilliseconds result.Duration)) % 2 ^ 64 }) := by
  constructor
  · intro h120
    rw [lookup_own_bucket_after_ingest, if_pos (Or.inr (Or.inr (Or.inr h120)))]
  · intro h0 h1 h2 h3
    have t1 := threshold_sixty_le_thirty (now 1)
    have t2 := threshold_ninety_le_thirty (now 2)
    have t3 := threshold_oneHundredTwenty_le_thirty (now 3)
    rw [lookup_own_bucket_after_ingest, if_neg]
    intro hor
    rcases hor with h | h | h | h
    · exact absurd h0 (not_le.mpr h)
    · exact absurd (le_trans t1 h1) (not_le.mpr h)
    · exact absurd (le_trans t2 h2) (not_le.mpr h)
    · exact absurd (le_trans t3 h3) (not_le.mpr h)

/-- Witness of claim C5 as amended: a success of 5 ms stamped at the epoch and ingested at
the epoch into `NewUptime` leaves the bucket of hour 0 with the counters 1, 1 and 5. -/
theorem c5_witness :
    mapLookup (mapEntries (memory.processUptimeAfterResult NewUptime ⟨0, true, 5000000⟩
      (fun _ => 0)).HourlyStatistics) (unixTimestampFlooredAtHour ⟨0, true, 5000000⟩)
      = some ⟨1, 1, 5⟩ :=
  ((c5_ingest_updates_bucket_of_the_hour NewUptime ⟨0, true, 5000000⟩ (fun _ => 0)).2
    (by decide) (by decide) (by decide) (by decide)).trans (by decide)

/-- Counterexample to claim C5 as stated: a result stamped at the epoch and ingested 121
days later into an empty map leaves no bucket for its hour, because the key 0 is below the
threshold 86400 of the 120-day pass. -/
theorem c5_counterexample :
    unixTimestampFlooredAtHour ⟨0, true, 0⟩
        < timeUnix (timeAdd 10454400000000000 (negDuration oneHundredTwentyDays)) ∧
      mapLookup (mapEntries (memory.processUptimeAfterResult NewUptime ⟨0, true, 0⟩
        (fun _ => 10454400000000000)).HourlyStatistics)
        (unixTimestampFlooredAtHour ⟨0, true, 0⟩) = none := by
  decide

/-! ## Claim C6 -/

/-- Claim C6, evaluated at a failing input: 120 days after the epoch a bucket that is 45 days
old, so well inside the 120-day retention, is present before an ingest and deleted by it. -/
theorem c6_ingest_deletes_bucket_inside_120_days :
    timeUnix (timeAdd 10368000000000000 (negDuration oneHundredTwentyDays)) ≤ 6480000 ∧
    mapLookup (mapEntries (some [(6480000, ⟨4, 4, 100⟩)])) 6480000 = some ⟨4, 4, 100⟩ ∧
    mapLookup (mapEntries (memory.processUptimeAfterResult
      ⟨some [(6480000, ⟨4, 4, 100⟩)], 0, 0, 0, 0, 0⟩ ⟨10368000000000000, true, 0⟩
      (fun _ => 10368000000000000)).HourlyStatistics) 6480000 = none := by
  decide

/-! ## Claim C4 -/

/-- The invariant carried through a run of ingests: every bucket has at most as many successes
as executions, and at most `n` executions. -/
theorem bounded_after_ingest (n : Nat) (hn : n + 1 < 2 ^ 64) (uptime : Uptime)
    (result : Result) (now : Nat → Time)
    (h : ∀ e ∈ mapEntries uptime.HourlyStatistics,
      e.2.SuccessfulExecutions ≤ e.2.TotalExecutions ∧ e.2.TotalExecutions ≤ n) :
    ∀ e ∈ mapEntries (memory.processUptimeAfterResult uptime result now).HourlyStatistics,
      e.2.SuccessfulExecutions ≤ e.2.TotalExecutions ∧ e.2.TotalExecutions ≤ n + 1 := by
  intro e he
  have hold : ((mapLookup (mapEntries uptime.HourlyStatistics)
      (unixTimestampFlooredAtHour result)).getD ⟨0, 0, 0⟩).SuccessfulExecutions ≤
      ((mapLookup (mapEntries uptime.HourlyStatistics)
        (unixTimestampFlooredAtHour result)).getD ⟨0, 0, 0⟩).TotalExecutions ∧
      ((mapLookup (mapEntries uptime.HourlyStatistics)
        (unixTimestampFlooredAtHour result)).getD ⟨0, 0, 0⟩).TotalExecutions ≤ n := by
    cases hl : mapLookup (mapEntries uptime.HourlyStatistics)
        (unixTimestampFlooredAtHour result) with
    | none => simp
    | some s => exact h _ (mem_of_mapLookup _ _ _ hl)
  rw [processUptimeAfterResult_hourly, mapEntries, Option.getD_some] at he
  simp only [List.mem_filter] at he
  rcases mem_mapStore _ _ _ _ he.1.1.1.1 with h1 | h1
  · have := h e h1
    omega
  · revert hold h1
    generalize (mapLookup (mapEntries uptime.HourlyStatistics)
      (unixTimestampFlooredAtHour result)).getD ⟨0, 0, 0⟩ = old
    intro hold h1
    rw [h1]
    unfold recordResult
    cases result.Success <;> simp only [if_true, if_false, Bool.false_eq_true] <;> omega

theorem bounded_after_ingestAll (results : List (Result × (Nat → Time))) (n : Nat)
    (uptime : Uptime) (hn : n + results.length < 2 ^ 64)
    (h : ∀ e ∈ mapEntries uptime.HourlyStatistics,
      e.2.SuccessfulExecutions ≤ e.2.TotalExecutions ∧ e.2.TotalExecutions ≤ n) :
    ∀ e ∈ mapEntries (ingestAll uptime results).HourlyStatistics,
      e.2.SuccessfulExecutions ≤ e.2.TotalExecutions ∧
        e.2.TotalExecutions ≤ n + results.length := by
  induction results generalizing n uptime with
  | nil => simpa [ingestAll] using h
  | cons rc rest ih =>
    have hlen : (rc :: rest).length = rest.length + 1 := List.length_cons rc rest
    have hstep := bounded_after_ingest n (by omega) uptime rc.1 rc.2 h
    have := ih (n + 1) (memory.processUptimeAfterResult uptime rc.1 rc.2) (by omega) hstep
    intro e he
    have hh := this e (by simpa [ingestAll] using he)
    omega

/-- Claim C4, amended: starting from an empty `Uptime` (`NewUptime`, or a nil map) and for
every sequence of fewer than `2 ^ 64` results, whatever the clock reads, every bucket present
after every step satisfies `SuccessfulExecutions <= TotalExecutions`. -/
theorem c4_invariant_below_counter_overflow (uptime : Uptime)
    (results : List (Result × (Nat → Time)))
    (hempty : uptime.HourlyStatistics = none ∨ uptime.HourlyStatistics = some [])
    (hlen : results.length < 2 ^ 64) (steps : Nat) :
    ∀ e ∈ mapEntries (ingestAll uptime (results.take steps)).HourlyStatistics,
      bucketInvariant e.2 := by
  intro e he
  have h0 : ∀ e ∈ mapEntries uptime.HourlyStatistics,
      e.2.SuccessfulExecutions ≤ e.2.TotalExecutions ∧ e.2.TotalExecutions ≤ 0 := by
    rcases hempty with h | h <;> simp [h, mapEntries]
  have hl : (results.take steps).length ≤ results.length := by
    rw [List.length_take]
    exact Nat.min_le_right _ _
  exact (bounded_after_ingestAll (results.take steps) 0 uptime (by omega) h0 e he).1

/-- Witness of claim C4 as amended: two results of the same hour, a success of 5 ms and a
failure, ingested into `NewUptime` leave one bucket with 2 executions and 1 success. -/
theorem c4_witness :
    (ingestAll NewUptime
        (List.take 2 [(⟨0, true, 5000000⟩, fun _ => 0), (⟨1000000000, false, 0⟩, fun _ => 0)])
      ).HourlyStatistics = some [(0, ⟨2, 1, 5⟩)] ∧
    bucketInvariant (⟨2, 1, 5⟩ : HourlyUptimeStatistics) :=
  ⟨by decide,
    c4_invariant_below_counter_overflow NewUptime
      [(⟨0, true, 5000000⟩, fun _ => 0), (⟨1000000000, false, 0⟩, fun _ => 0)]
      (Or.inr rfl) (by decide) 2 (0, ⟨2, 1, 5⟩) (by decide)⟩

theorem ingest_failure_at_epoch (t s : Nat) (uptime : Uptime)
    (hu : uptime.HourlyStatistics = some [(0, ⟨t, s, 0⟩)]) :
    (memory.processUptimeAfterResult uptime ⟨0, false, 0⟩ (fun _ => 0)).HourlyStatistics =
      some [(0, ⟨(t + 1) % 2 ^ 64, s, 0⟩)] := by
  have hkey : unixTimestampFlooredAtHour ⟨0, false, 0⟩ = 0 := by decide
  have h30 : timeUnix (timeAdd 0 (negDuration thirtyDays)) ≤ 0 := by decide
  have h60 : timeUnix (timeAdd 0 (negDuration sixtyDays)) ≤ 0 := by decide
  have h90 : timeUnix (timeAdd 0 (negDuration ninetyDays)) ≤ 0 := by decide
  have h120 : timeUnix (timeAdd 0 (negDuration oneHundredTwentyDays)) ≤ 0 := by decide
  have hms : toUint64 (durationMilliseconds 0) = 0 := by decide
  rw [processUptimeAfterResult_hourly, hu, hkey]
  simp [mapEntries, mapLookup, mapStore, recordResult, h30, h60, h90, h120, hms]

theorem ingestAll_failures_at_epoch (n : Nat) (t s : Nat) (ht : t < 2 ^ 64) (uptime : Uptime)
    (hu : uptime.HourlyStatistics = some [(0, ⟨t, s, 0⟩)]) :
    (ingestAll uptime (List.replicate n (⟨0, false, 0⟩, fun _ => 0))).HourlyStatistics =
      some [(0, ⟨(t + n) % 2 ^ 64, s, 0⟩)] := by
  induction n generalizing t uptime with
  | zero =>
    rw [List.replicate_zero, ingestAll, List.foldl_nil, hu, Nat.add_zero, Nat.mod_eq_of_lt ht]
  | succ n ih =>
    rw [List.replicate_succ, ingestAll, List.foldl_cons]
    have hstep := ingest_failure_at_epoch t s uptime hu
    have := ih ((t + 1) % 2 ^ 64) (Nat.mod_lt _ (by norm_num)) _ hstep
    rw [ingestAll] at this
    rw [this]
    have harith : ((t + 1) % 2 ^ 64 + n) % 2 ^ 64 = (t + (n + 1)) % 2 ^ 64 := by omega
    rw [harith]

/-- Counterexample to claim C4 as stated: one success followed by `2 ^ 64 - 1` failures in the
same hour wraps `TotalExecutions` to 0 while `SuccessfulExecutions` is 1. -/
theorem c4_counterexample :
    ¬ ∀ e ∈ mapEntries (ingestAll NewUptime
        ((⟨0, true, 0⟩, fun _ => 0) :: List.replicate (2 ^ 64 - 1) (⟨0, false, 0⟩, fun _ => 0))
      ).HourlyStatistics, bucketInvariant e.2 := by
  have hfirst : (memory.processUptimeAfterResult NewUptime ⟨0, true, 0⟩
      (fun _ => 0)).HourlyStatistics = some [(0, ⟨1, 1, 0⟩)] := by decide
  have hrun := ingestAll_failures_at_epoch (2 ^ 64 - 1) 1 1 (by norm_num) _ hfirst
  have hwrap : (1 + (2 ^ 64 - 1)) % 2 ^ 64 = 0 := by norm_num
  rw [hwrap] at hrun
  intro hall
  have hmem : ((0 : Int), (⟨0, 1, 0⟩ : HourlyUptimeStatistics)) ∈
      mapEntries (ingestAll NewUptime
        ((⟨0, true, 0⟩, fun _ => 0) :: List.replicate (2 ^ 64 - 1) (⟨0, false, 0⟩, fun _ => 0))
      ).HourlyStatistics := by
    rw [ingestAll, List.foldl_cons]
    rw [ingestAll] at hrun
    rw [hrun]
    exact List.mem_singleton.mpr rfl
  have hle : (1 : Nat) ≤ 0 := hall _ hmem
  omega

/-! ## Claim C9 -/

/-- Claim C9: with one fixed reading `now` of the clock, the cleanup buffer chosen by
`deleteOldUptimeEntries` is 65 days when `maxAge` is before `now - 60 days`, otherwise 15 days
when `maxAge` is before `now - 14 days`, otherwise 8 days when `maxAge` is before
`now - 7 days`, and otherwise 35 days. -/
theorem c9_cleanup_buffer_tiers (now maxAge : Int) :
    sql.cleanupThreshold maxAge (fun _ => now) =
      if maxAge < now - days 60 then days 65
      else if maxAge < now - days 14 then days 15
      else if maxAge < now - days 7 then days 8
      else days 35 := by
  have e60 : timeAdd now (-longTermUptimeRetentionDuration) = now - days 60 := by
    show now + -(60 * 24 * (3600 * 1000000000)) = now - 60 * 86400000000000
    omega
  have e14 : timeAdd now (-mediumTermUptimeRetentionDuration) = now - days 14 := by
    show now + -(14 * 24 * (3600 * 1000000000)) = now - 14 * 86400000000000
    omega
  have e7 : timeAdd now (-shortTermUptimeRetentionDuration) = now - days 7 := by
    show now + -(7 * 24 * (3600 * 1000000000)) = now - 7 * 86400000000000
    omega
  have c65 : longTermUptimeCleanupThreshold = days 65 := by decide
  have c15 : mediumTermUptimeCleanupThreshold = days 15 := by decide
  have c8 : shortTermUptimeCleanupThreshold = days 8 := by decide
  have c35 : customUptimeCleanupThreshold = days 35 := by decide
  simp only [sql.cleanupThreshold, timeBefore, e60, e14, e7, c65, c15, c8, c35,
    decide_eq_true_eq]

/-! ## Claim C10 -/

theorem cleanupThreshold_cases (maxAge : Time) (now : Nat → Time) :
    sql.cleanupThreshold maxAge now = days 65 ∨ sql.cleanupThreshold maxAge now = days 15 ∨
      sql.cleanupThreshold maxAge now = days 8 ∨ sql.cleanupThreshold maxAge now = days 35 := by
  have c65 : longTermUptimeCleanupThreshold = days 65 := by decide
  have c15 : mediumTermUptimeCleanupThreshold = days 15 := by decide
  have c8 : shortTermUptimeCleanupThreshold = days 8 := by decide
  have c35 : customUptimeCleanupThreshold = days 35 := by decide
  unfold sql.cleanupThreshold
  rw [c65, c15, c8, c35]
  split_ifs <;> simp

theorem cleanupThreshold_pos (maxAge : Time) (now : Nat → Time) :
    0 < sql.cleanupThreshold maxAge now := by
  rcases cleanupThreshold_cases maxAge now with h | h | h | h <;> rw [h] <;> decide

theorem deleteBound_eq (maxAge : Int) (now : Nat → Time) :
    sql.deleteBound maxAge now = (maxAge - sql.cleanupThreshold maxAge now) / 1000000000 := by
  have hneg : negDuration (sql.cleanupThreshold maxAge now) =
      -sql.cleanupThreshold maxAge now := by
    rcases cleanupThreshold_cases maxAge now with h | h | h | h <;> rw [h] <;> decide
  unfold sql.deleteBound
  rw [hneg]
  show (maxAge + -sql.cleanupThreshold maxAge now) / 1000000000 = _
  rw [Int.sub_eq_add_neg]

theorem deleteBound_le_unix (maxAge : Int) (now : Nat → Time) :
    sql.deleteBound maxAge now ≤ timeUnix maxAge := by
  rw [deleteBound_eq]
  have hpos := cleanupThreshold_pos maxAge now
  show (maxAge - sql.cleanupThreshold maxAge now) / 1000000000 ≤ maxAge / 1000000000
  generalize sql.cleanupThreshold maxAge now = b at hpos
  have hpos' : (0 : Int) < b := hpos
  omega

/-- Claim C10: `deleteOldUptimeEntries` removes exactly the rows of the given endpoint whose
`hour_unix_timestamp` is strictly less than `maxAge - buffer` in Unix seconds, where `buffer`
is the positive margin selected by the tiers; so no row with `hour_unix_timestamp` at or after
`maxAge` in Unix seconds is deleted, and the rows of every other endpoint are left unchanged. -/
theorem c10_delete_removes_exactly_old_rows_of_endpoint (tx : EndpointUptimes)
    (endpointID : Int) (maxAge : Int) (now : Nat → Time) :
    sql.deleteOldUptimeEntries tx endpointID maxAge now =
      tx.filter (fun row => !(decide (row.endpoint_id = endpointID) &&
        decide (row.hour_unix_timestamp
          < (maxAge - sql.cleanupThreshold maxAge now) / 1000000000))) ∧
    0 < sql.cleanupThreshold maxAge now ∧
    (∀ row, row ∈ sql.deleteOldUptimeEntries tx endpointID maxAge now ↔
      row ∈ tx ∧ ¬ (row.endpoint_id = endpointID ∧
        row.hour_unix_timestamp < (maxAge - sql.cleanupThreshold maxAge now) / 1000000000)) ∧
    (∀ row ∈ tx, timeUnix maxAge ≤ row.hour_unix_timestamp →
      row ∈ sql.deleteOldUptimeEntries tx endpointID maxAge now) ∧
    (∀ other, other ≠ endpointID →
      (sql.deleteOldUptimeEntries tx endpointID maxAge now).filter
          (fun row => decide (row.endpoint_id = other)) =
        tx.filter (fun row => decide (row.endpoint_id = other))) := by
  have hdef : sql.deleteOldUptimeEntries tx endpointID maxAge now =
      tx.filter (fun row => !(decide (row.endpoint_id = endpointID) &&
        decide (row.hour_unix_timestamp
          < (maxAge - sql.cleanupThreshold maxAge now) / 1000000000))) := by
    rw [← deleteBound_eq]
    rfl
  refine ⟨hdef, cleanupThreshold_pos maxAge now, ?_, ?_, ?_⟩
  · intro row
    rw [hdef, List.mem_filter]
    simp only [Bool.not_eq_true', Bool.and_eq_false_imp, decide_eq_true_eq,
      decide_eq_false_iff_not, not_and]
  · intro row hrow hge
    have hb := deleteBound_le_unix maxAge now
    rw [deleteBound_eq] at hb
    rw [hdef, List.mem_filter]
    refine ⟨hrow, ?_⟩
    have : ¬ row.hour_unix_timestamp
        < (maxAge - sql.cleanupThreshold maxAge now) / 1000000000 := by omega
    simp [this]
  · intro other hne
    rw [hdef, List.filter_filter]
    apply List.filter_congr
    intro row _
    by_cases h : row.endpoint_id = other
    · have : row.endpoint_id ≠ endpointID := by rw [h]; exact hne
      simp [h, this, hne]
    · simp [h]

/-- Witness of claim C10: at `now` 100 days after the epoch and `maxAge` 93 days after it, the
buffer is 35 days and the bound is day 58; only the row of endpoint 1 before day 58 goes. -/
theorem c10_witness :
    sql.deleteOldUptimeEntries
        [⟨1, 5007600, 3, 2, 40⟩, ⟨1, 5011200, 1, 1, 7⟩, ⟨2, 0, 9, 9, 90⟩, ⟨1, 8035200, 2, 2, 8⟩]
        1 8035200000000000 (fun _ => 8640000000000000) =
      [⟨1, 5011200, 1, 1, 7⟩, ⟨2, 0, 9, 9, 90⟩, ⟨1, 8035200, 2, 2, 8⟩] ∧
    (⟨1, 8035200, 2, 2, 8⟩ : EndpointUptimeRow) ∈ sql.deleteOldUptimeEntries
        [⟨1, 5007600, 3, 2, 40⟩, ⟨1, 5011200, 1, 1, 7⟩, ⟨2, 0, 9, 9, 90⟩, ⟨1, 8035200, 2, 2, 8⟩]
        1 8035200000000000 (fun _ => 8640000000000000) :=
  ⟨by decide,
    (c10_delete_removes_exactly_old_rows_of_endpoint
      [⟨1, 5007600, 3, 2, 40⟩, ⟨1, 5011200, 1, 1, 7⟩, ⟨2, 0, 9, 9, 90⟩, ⟨1, 8035200, 2, 2, 8⟩]
      1 8035200000000000 (fun _ => 8640000000000000)).2.2.2.1 ⟨1, 8035200, 2, 2, 8⟩
      (by decide) (by decide)⟩

/-! ## The upsert of the relational backend -/

theorem upsert_absent (tx : EndpointUptimes) (excluded : EndpointUptimeRow)
    (h : ∀ row ∈ tx, ¬ (row.endpoint_id = excluded.endpoint_id ∧
      row.hour_unix_timestamp = excluded.hour_unix_timestamp)) :
    sql.upsertEndpointUptime tx excluded = tx ++ [excluded] := by
  induction tx with
  | nil => rfl
  | cons row rest ih =>
    have h1 := h row (List.mem_cons_self row rest)
    rw [sql.upsertEndpointUptime, if_neg h1, ih (fun r hr => h r (List.mem_cons_of_mem row hr))]
    rfl

theorem upsert_append_present (tx : EndpointUptimes) (stored excluded : EndpointUptimeRow)
    (h : ∀ row ∈ tx, ¬ (row.endpoint_id = excluded.endpoint_id ∧
      row.hour_unix_timestamp = excluded.hour_unix_timestamp))
    (hk : stored.endpoint_id = excluded.endpoint_id ∧
      stored.hour_unix_timestamp = excluded.hour_unix_timestamp) :
    sql.upsertEndpointUptime (tx ++ [stored]) excluded =
      tx ++ [{ stored with
        total_executions := excluded.total_executions + stored.total_executions
        successful_executions := excluded.successful_executions + stored.successful_executions
        total_response_time := excluded.total_response_time + stored.total_response_time }] := by
  induction tx with
  | nil =>
    rw [List.nil_append, sql.upsertEndpointUptime, if_pos hk]
    rfl
  | cons row rest ih =>
    have h1 := h row (List.mem_cons_self row rest)
    rw [List.cons_append, sql.upsertEndpointUptime, if_neg h1,
      ih (fun r hr => h r (List.mem_cons_of_mem row hr))]
    rfl

/-- Two upserts with the same key commute, on every table. -/
theorem upsert_comm (tx : EndpointUptimes) (a b : EndpointUptimeRow)
    (hk : a.endpoint_id = b.endpoint_id ∧ a.hour_unix_timestamp = b.hour_unix_timestamp) :
    sql.upsertEndpointUptime (sql.upsertEndpointUptime tx a) b =
      sql.upsertEndpointUptime (sql.upsertEndpointUptime tx b) a := by
  induction tx with
  | nil =>
    obtain ⟨h1, h2⟩ := hk
    cases a with
    | mk ai ah atot asuc art =>
      cases b with
      | mk bi bh btot bsuc brt =>
        simp only at h1 h2
        subst h1 h2
        simp [sql.upsertEndpointUptime, add_comm]
  | cons row rest ih =>
    by_cases h : row.endpoint_id = a.endpoint_id ∧
        row.hour_unix_timestamp = a.hour_unix_timestamp
    · have hb : row.endpoint_id = b.endpoint_id ∧
          row.hour_unix_timestamp = b.hour_unix_timestamp := ⟨h.1.trans hk.1, h.2.trans hk.2⟩
      have ea : sql.upsertEndpointUptime (row :: rest) a =
          { row with
            total_executions := a.total_executions + row.total_executions
            successful_executions := a.successful_executions + row.successful_executions
            total_response_time := a.total_response_time + row.total_response_time } :: rest := by
        rw [sql.upsertEndpointUptime, if_pos h]
      have eb : sql.upsertEndpointUptime (row :: rest) b =
          { row with
            total_executions := b.total_executions + row.total_executions
            successful_executions := b.successful_executions + row.successful_executions
            total_response_time := b.total_response_time + row.total_response_time } :: rest := by
        rw [sql.upsertEndpointUptime, if_pos hb]
      rw [ea, eb, sql.upsertEndpointUptime, if_pos hb, sql.upsertEndpointUptime, if_pos h]
      simp only [add_left_comm]
    · have hb : ¬ (row.endpoint_id = b.endpoint_id ∧
          row.hour_unix_timestamp = b.hour_unix_timestamp) := by
        intro hb
        exact h ⟨hb.1.trans hk.1.symm, hb.2.trans hk.2.symm⟩
      simp only [sql.upsertEndpointUptime, if_neg h, if_neg hb, ih]

theorem findRow_upsert (tx : EndpointUptimes) (excluded : EndpointUptimeRow) :
    sql.findRow (sql.upsertEndpointUptime tx excluded) excluded.endpoint_id
        excluded.hour_unix_timestamp =
      some (match sql.findRow tx excluded.endpoint_id excluded.hour_unix_timestamp with
        | none => excluded
        | some stored => { stored with
            total_executions := excluded.total_executions + stored.total_executions
            successful_executions :=
              excluded.successful_executions + stored.successful_executions
            total_response_time := excluded.total_response_time + stored.total_response_time })
    := by
  induction tx with
  | nil => simp [sql.upsertEndpointUptime, sql.findRow]
  | cons row rest ih =>
    by_cases h : row.endpoint_id = excluded.endpoint_id ∧
        row.hour_unix_timestamp = excluded.hour_unix_timestamp
    · simp [sql.upsertEndpointUptime, sql.findRow, h]
    · have hb : (decide (row.endpoint_id = excluded.endpoint_id) &&
          decide (row.hour_unix_timestamp = excluded.hour_unix_timestamp)) = false := by
        simpa using h
      simp only [sql.findRow] at ih
      simp only [sql.upsertEndpointUptime, if_neg h, sql.findRow, List.find?_cons, hb, ih]

/-! ## Claim C11 -/

/-- Claim C11: for two results whose timestamps floor to the same hour, applying
`updateEndpointUptime` for both to a table without the row of that endpoint and hour appends a
single row whose `total_executions`, `successful_executions` and `total_response_time` are the
sums of the two increments; on every table the outcome does not depend on the order; and an
upsert on a stored row adds the increment to the stored values. -/
theorem c11_upsert_adds_increments (tx : EndpointUptimes) (endpointID : Int)
    (r1 r2 : Result) :
    (unixTimestampFlooredAtHour r1 = unixTimestampFlooredAtHour r2 →
      sql.updateEndpointUptime (sql.updateEndpointUptime tx endpointID r1) endpointID r2 =
        sql.updateEndpointUptime (sql.updateEndpointUptime tx endpointID r2) endpointID r1) ∧
    (unixTimestampFlooredAtHour r1 = unixTimestampFlooredAtHour r2 →
      (∀ row ∈ tx, ¬ (row.endpoint_id = endpointID ∧
        row.hour_unix_timestamp = unixTimestampFlooredAtHour r1)) →
      sql.updateEndpointUptime (sql.updateEndpointUptime tx endpointID r1) endpointID r2 =
          tx ++ [⟨endpointID, unixTimestampFlooredAtHour r1, 1 + 1,
            (if r2.Success then 1 else 0) + (if r1.Success then 1 else 0),
            durationMilliseconds r2.Duration + durationMilliseconds r1.Duration⟩] ∧
        (sql.updateEndpointUptime (sql.updateEndpointUptime tx endpointID r1) endpointID
            r2).filter (fun row => decide (row.endpoint_id = endpointID) &&
              decide (row.hour_unix_timestamp = unixTimestampFlooredAtHour r1)) =
          [⟨endpointID, unixTimestampFlooredAtHour r1, 1 + 1,
            (if r2.Success then 1 else 0) + (if r1.Success then 1 else 0),
            durationMilliseconds r2.Duration + durationMilliseconds r1.Duration⟩]) ∧
    sql.findRow (sql.updateEndpointUptime tx endpointID r1) endpointID
        (unixTimestampFlooredAtHour r1) =
      some (match sql.findRow tx endpointID (unixTimestampFlooredAtHour r1) with
        | none => ⟨endpointID, unixTimestampFlooredAtHour r1, 1,
            if r1.Success then 1 else 0, durationMilliseconds r1.Duration⟩
        | some stored => { stored with
            total_executions := 1 + stored.total_executions
            successful_executions :=
              (if r1.Success then 1 else 0) + stored.successful_executions
            total_response_time :=
              durationMilliseconds r1.Duration + stored.total_response_time }) := by
  refine ⟨?_, ?_, ?_⟩
  · intro hkey
    unfold sql.updateEndpointUptime
    exact upsert_comm tx _ _ ⟨rfl, hkey⟩
  · intro hkey habsent
    have heq : sql.updateEndpointUptime (sql.updateEndpointUptime tx endpointID r1) endpointID
        r2 = tx ++ [⟨endpointID, unixTimestampFlooredAtHour r1, 1 + 1,
          (if r2.Success then 1 else 0) + (if r1.Success then 1 else 0),
          durationMilliseconds r2.Duration + durationMilliseconds r1.Duration⟩] := by
      unfold sql.updateEndpointUptime
      rw [upsert_absent tx _ habsent, ← hkey]
      exact upsert_append_present tx _ _ habsent ⟨rfl, rfl⟩
    refine ⟨heq, ?_⟩
    rw [heq, List.filter_append]
    have hnone : tx.filter (fun row => decide (row.endpoint_id = endpointID) &&
        decide (row.hour_unix_timestamp = unixTimestampFlooredAtHour r1)) = [] := by
      rw [List.filter_eq_nil_iff]
      intro row hrow
      simpa using habsent row hrow
    rw [hnone]
    simp
  · exact findRow_upsert tx _

/-- Witness of claim C11: the increments (1, 1, 100 ms) and (1, 0, 50 ms) of one hour on an
empty table give the row (2, 1, 150) in either order. -/
theorem c11_witness :
    sql.updateEndpointUptime (sql.updateEndpointUptime [] 7 ⟨0, true, 100000000⟩) 7
        ⟨1800000000000, false, 50000000⟩ = [⟨7, 0, 2, 1, 150⟩] ∧
      sql.updateEndpointUptime (sql.updateEndpointUptime [] 7 ⟨1800000000000, false, 50000000⟩)
        7 ⟨0, true, 100000000⟩ = [⟨7, 0, 2, 1, 150⟩] :=
  ⟨((c11_upsert_adds_increments [] 7 ⟨0, true, 100000000⟩
      ⟨1800000000000, false, 50000000⟩).2.1 (by decide)
        (fun _ h => absurd h (List.not_mem_nil _))).1.trans (by decide),
    ((c11_upsert_adds_increments [] 7 ⟨0, true, 100000000⟩
      ⟨1800000000000, false, 50000000⟩).1 (by decide)).symm.trans (by decide)⟩

/-! ## Claim C12 -/

theorem timeUnix_timeTruncate_hour (t : Int) :
    timeUnix (timeTruncate t Hour) = t / 1000000000 / 3600 * 3600 := by
  show (if (3600 * 1000000000 : Int) ≤ 0 then t
      else t - (t + 62135596800 * 1000000000) % (3600 * 1000000000)) / 1000000000 =
    t / 1000000000 / 3600 * 3600
  rw [if_neg (by norm_num)]
  omega

theorem unixTimestampFlooredAtHour_eq (result : Result) :
    unixTimestampFlooredAtHour result = timeUnix result.Timestamp / 3600 * 3600 :=
  timeUnix_timeTruncate_hour result.Timestamp

/-- Claim C12: the bucket key `result.Timestamp.Truncate(time.Hour).Unix()`, used by the
ingest of both backends, is the unique integer `k` divisible by 3600 with `k <= t < k + 3600`
for the timestamp `t` in Unix seconds; two results share a key if and only if their timestamps
lie in the same clock hour. -/
theorem c12_bucket_key_floors_to_hour (result other : Result) :
    ((3600 : Int) ∣ unixTimestampFlooredAtHour result ∧
      unixTimestampFlooredAtHour result ≤ timeUnix result.Timestamp ∧
      timeUnix result.Timestamp < unixTimestampFlooredAtHour result + 3600) ∧
    (∀ k : Int, (3600 : Int) ∣ k → k ≤ timeUnix result.Timestamp →
      timeUnix result.Timestamp < k + 3600 → k = unixTimestampFlooredAtHour result) ∧
    (unixTimestampFlooredAtHour result = unixTimestampFlooredAtHour other ↔
      timeUnix result.Timestamp / 3600 = timeUnix other.Timestamp / 3600) ∧
    (∀ (uptime : Uptime),
      mapLookup (mapEntries (upsertBucket uptime result).HourlyStatistics)
        (unixTimestampFlooredAtHour result) ≠ none) ∧
    (∀ (endpointID : Int), sql.findRow (sql.updateEndpointUptime [] endpointID result)
      endpointID (unixTimestampFlooredAtHour result) ≠ none) := by
  have h1 := unixTimestampFlooredAtHour_eq result
  have h2 := unixTimestampFlooredAtHour_eq other
  refine ⟨⟨?_, ?_, ?_⟩, ?_, ?_, ?_, ?_⟩
  · omega
  · omega
  · omega
  · intro k hk hle hlt
    omega
  · constructor <;> intro h <;> omega
  · intro uptime
    simp [upsertBucket, mapEntries, mapLookup_mapStore]
  · intro endpointID
    simp [sql.updateEndpointUptime, sql.upsertEndpointUptime, sql.findRow]

/-- Witness of claim C12: the timestamp 7325.5 s has the key 7200, and a result 3599 s into
the same hour shares it while one at the next full hour does not. -/
theorem c12_witness :
    unixTimestampFlooredAtHour ⟨7325500000000, true, 0⟩ = 7200 ∧
      unixTimestampFlooredAtHour ⟨10799000000000, true, 0⟩ = 7200 ∧
      unixTimestampFlooredAtHour ⟨10800000000000, true, 0⟩ = 10800 :=
  ⟨((c12_bucket_key_floors_to_hour ⟨7325500000000, true, 0⟩ ⟨0, true, 0⟩).2.1 7200
      (by decide) (by decide) (by decide)).symm,
    ((c12_bucket_key_floors_to_hour ⟨10799000000000, true, 0⟩ ⟨0, true, 0⟩).2.1 7200
      (by decide) (by decide) (by decide)).symm,
    ((c12_bucket_key_floors_to_hour ⟨10800000000000, true, 0⟩ ⟨0, true, 0⟩).2.1 10800
      (by decide) (by decide) (by decide)).symm⟩

/-! ## Claim C13 -/

theorem mapLookup_mapStore_ne (m : HourlyMap) (k k' : Int) (v : HourlyUptimeStatistics)
    (h : k' ≠ k) : mapLookup (mapStore m k v) k' = mapLookup m k' := by
  induction m with
  | nil =>
    have : ¬ k = k' := fun hk => h hk.symm
    simp [mapStore, mapLookup, this]
  | cons e m ih =>
    by_cases he : e.1 = k
    · have : ¬ k = k' := fun hk => h hk.symm
      have h2 : ¬ e.1 = k' := fun hk => h (hk.symm.trans he)
      simp [mapStore, mapLookup, he, this]
    · by_cases hk : e.1 = k'
      · simp [mapStore, mapLookup, hk, h]
      · simp [mapStore, mapLookup, he, hk, ih]

/-- Claim C13: `processUptimeAfterResult` changes the counters of at most one bucket, the one
keyed by the hour-floored timestamp of the result: a bucket with another key is, after the
call, either deleted by a cleanup pass or present with exactly the counters it had before,
and no bucket with another key is created. -/
theorem c13_ingest_leaves_other_buckets (uptime : Uptime) (result : Result)
    (now : Nat → Time) (k : Int) (hk : k ≠ unixTimestampFlooredAtHour result) :
    (mapLookup (mapEntries (memory.processUptimeAfterResult uptime result now).HourlyStatistics)
        k =
      if k < timeUnix (timeAdd (now 0) (negDuration thirtyDays))
          ∨ k < timeUnix (timeAdd (now 1) (negDuration sixtyDays))
          ∨ k < timeUnix (timeAdd (now 2) (negDuration ninetyDays))
          ∨ k < timeUnix (timeAdd (now 3) (negDuration oneHundredTwentyDays)) then none
      else mapLookup (mapEntries uptime.HourlyStatistics) k) ∧
    (∀ s, mapLookup
        (mapEntries (memory.processUptimeAfterResult uptime result now).HourlyStatistics) k
        = some s → mapLookup (mapEntries uptime.HourlyStatistics) k = some s) ∧
    (mapLookup (mapEntries uptime.HourlyStatistics) k = none →
      mapLookup (mapEntries (memory.processUptimeAfterResult uptime result now).HourlyStatistics)
        k = none) := by
  have hmain : mapLookup
      (mapEntries (memory.processUptimeAfterResult uptime result now).HourlyStatistics) k =
      if k < timeUnix (timeAdd (now 0) (negDuration thirtyDays))
          ∨ k < timeUnix (timeAdd (now 1) (negDuration sixtyDays))
          ∨ k < timeUnix (timeAdd (now 2) (negDuration ninetyDays))
          ∨ k < timeUnix (timeAdd (now 3) (negDuration oneHundredTwentyDays)) then none
      else mapLookup (mapEntries uptime.HourlyStatistics) k := by
    rw [processUptimeAfterResult_hourly]
    simp only [mapEntries, Option.getD_some, mapLookup_filter_ge,
      mapLookup_mapStore_ne _ _ _ _ hk]
    split_ifs <;> first | rfl | (exfalso; omega)
  refine ⟨hmain, ?_, ?_⟩
  · intro s hs
    rw [hmain] at hs
    split_ifs at hs
    exact hs
  · intro hnone
    rw [hmain, hnone]
    split_ifs <;> rfl

/-- Witness of claim C13: a result of hour 10368000 leaves the bucket of hour 10364400 as it
was. -/
theorem c13_witness :
    mapLookup (mapEntries (memory.processUptimeAfterResult
      ⟨some [(10364400, ⟨4, 3, 100⟩)], 0, 0, 0, 0, 0⟩ ⟨10368000000000000, true, 0⟩
      (fun _ => 10368000000000000)).HourlyStatistics) 10364400 = some ⟨4, 3, 100⟩ :=
  ((c13_ingest_leaves_other_buckets ⟨some [(10364400, ⟨4, 3, 100⟩)], 0, 0, 0, 0, 0⟩
    ⟨10368000000000000, true, 0⟩ (fun _ => 10368000000000000) 10364400
    (by decide)).1).trans (by decide)

/-! ## Claim C14 -/

theorem timeUnix_sub_days (now : Int) (d : Duration) (n : Int) (h : d = days n) :
    timeUnix (timeAdd now (-d)) = (now - days n) / 1000000000 := by
  rw [h]
  show (now + -days n) / 1000000000 = (now - days n) / 1000000000
  rw [Int.sub_eq_add_neg]

/-- Claim C14: `updateUptimePercentages` at time `now` sets the percentage of `N` days, for
`N` in 7, 30, 60, 90 and 120, to the percentage computed from the `uint64` sums over exactly
the buckets whose hour timestamp is at least `now - N * 24h` in Unix seconds, which is 100
when those buckets hold no executions; the buckets are left as they are. -/
theorem c14_fixed_window_percentages (uptime : Uptime) (now : Int) :
    (memory.updateUptimePercentages uptime now).HourlyStatistics = uptime.HourlyStatistics ∧
    (memory.updateUptimePercentages uptime now).SevenDayPercentage =
      windowPercentage uptime ((now - days 7) / 1000000000) ∧
    (memory.updateUptimePercentages uptime now).ThirtyDayPercentage =
      windowPercentage uptime ((now - days 30) / 1000000000) ∧
    (memory.updateUptimePercentages uptime now).SixtyDayPercentage =
      windowPercentage uptime ((now - days 60) / 1000000000) ∧
    (memory.updateUptimePercentages uptime now).NinetyDayPercentage =
      windowPercentage uptime ((now - days 90) / 1000000000) ∧
    (memory.updateUptimePercentages uptime now).OneHundredTwentyDayPercentage =
      windowPercentage uptime ((now - days 120) / 1000000000) ∧
    (∀ start : Int,
      sumTotal ((mapEntries uptime.HourlyStatistics).filter (atOrAfter start)) = 0 →
      windowPercentage uptime start = 100) := by
  refine ⟨rfl, ?_, ?_, ?_, ?_, ?_, ?_⟩
  · rw [← timeUnix_sub_days now sevenDays 7 (by decide), windowPercentage,
      ← memory_calculate_eq]
    rfl
  · rw [← timeUnix_sub_days now thirtyDays 30 (by decide), windowPercentage,
      ← memory_calculate_eq]
    rfl
  · rw [← timeUnix_sub_days now sixtyDays 60 (by decide), windowPercentage,
      ← memory_calculate_eq]
    rfl
  · rw [← timeUnix_sub_days now ninetyDays 90 (by decide), windowPercentage,
      ← memory_calculate_eq]
    rfl
  · rw [← timeUnix_sub_days now oneHundredTwentyDays 120 (by decide), windowPercentage,
      ← memory_calculate_eq]
    rfl
  · intro start hzero
    rw [windowPercentage, hzero]
    simp [percentageOf]

/-- Witness of claim C14: 130 days after the epoch, with buckets 100 days and 1 day old, the
7-day window holds no executions of the older bucket and none at all once the newer bucket is
empty. -/
theorem c14_witness :
    windowPercentage ⟨some [(2592000, ⟨4, 1, 100⟩), (11145600, ⟨0, 0, 0⟩)], 0, 0, 0, 0, 0⟩
      ((11232000000000000 - days 7) / 1000000000) = 100 :=
  (c14_fixed_window_percentages
    ⟨some [(2592000, ⟨4, 1, 100⟩), (11145600, ⟨0, 0, 0⟩)], 0, 0, 0, 0, 0⟩
    11232000000000000).2.2.2.2.2.2 _ (by decide)

/-! ## Claim C17 -/

/-- Claim C17: the percentage of the memory package from the start time `from` on equals the
percentage of the core package over `[from.Unix(), toTime]` for every `toTime` that is at least
every bucket timestamp of the map, for example the greatest `int64` when the keys are `int64`
values. -/
theorem c17_memory_percentage_is_core_percentage (uptime : Uptime) (start : Time)
    (toTime : Int) (hmax : ∀ e ∈ mapEntries uptime.HourlyStatistics, e.1 ≤ toTime) :
    memory.calculateUptimePercentage uptime start =
      core.calculateUptimePercentage uptime (timeUnix start) toTime := by
  rw [memory_calculate_eq, core_calculate_eq]
  have hfilter : (mapEntries uptime.HourlyStatistics).filter (atOrAfter (timeUnix start)) =
      (mapEntries uptime.HourlyStatistics).filter (inWindow (timeUnix start) toTime) := by
    apply List.filter_congr
    intro e he
    simp [atOrAfter, inWindow, hmax e he]
  rw [hfilter]

/-- Witness of claim C17: a map of three buckets, with the greatest `int64` as upper end. -/
theorem c17_witness :
    memory.calculateUptimePercentage
        ⟨some [(0, ⟨3, 1, 9⟩), (3600, ⟨10, 8, 0⟩), (7200, ⟨5, 5, 0⟩)], 0, 0, 0, 0, 0⟩
        3600000000000 =
      core.calculateUptimePercentage
        ⟨some [(0, ⟨3, 1, 9⟩), (3600, ⟨10, 8, 0⟩), (7200, ⟨5, 5, 0⟩)], 0, 0, 0, 0, 0⟩
        (timeUnix 3600000000000) 9223372036854775807 :=
  c17_memory_percentage_is_core_percentage _ 3600000000000 9223372036854775807 (by decide)

/-! ## Claim C18 -/

theorem filter_atOrAfter_of_filter_ge (a b : Int) (h : a ≤ b) (m : HourlyMap) :
    (m.filter (fun e => decide (b ≤ e.1))).filter (atOrAfter a) =
      m.filter (fun e => decide (b ≤ e.1)) :=
  filter_ge_of_filter_ge a b h m

theorem calculate_after_thirty_day_pass (uptime : Uptime) (now : Int) (d : Duration)
    (h : timeUnix (timeAdd now (-d)) ≤ timeUnix (timeAdd now (negDuration thirtyDays))) :
    memory.calculateUptimePercentage
        (memory.cleanupOldStatistics uptime thirtyDays now) (timeAdd now (-d)) =
      percentageOf
        (sumSuccessful
          (mapEntries (memory.cleanupOldStatistics uptime thirtyDays now).HourlyStatistics)
          % 2 ^ 64)
        (sumTotal
          (mapEntries (memory.cleanupOldStatistics uptime thirtyDays now).HourlyStatistics)
          % 2 ^ 64) := by
  rw [memory_calculate_eq, cleanupOldStatistics_eq]
  cases hm : uptime.HourlyStatistics with
  | none => rfl
  | some m =>
    simp only [Option.map_some', mapEntries, Option.getD_some]
    rw [filter_atOrAfter_of_filter_ge _ _ h]

/-- Claim C18: with one fixed reading `now` of the clock, after `processUptimeAfterResult` the
30-day, 60-day, 90-day and 120-day percentages are all equal, each being the percentage over
all buckets left by the cleanup. -/
theorem c18_long_window_percentages_coincide (uptime : Uptime) (result : Result) (now : Int) :
    (memory.processUptimeAfterResult uptime result (fun _ => now)).ThirtyDayPercentage =
      (memory.processUptimeAfterResult uptime result (fun _ => now)).SixtyDayPercentage ∧
    (memory.processUptimeAfterResult uptime result (fun _ => now)).SixtyDayPercentage =
      (memory.processUptimeAfterResult uptime result (fun _ => now)).NinetyDayPercentage ∧
    (memory.processUptimeAfterResult uptime result (fun _ => now)).NinetyDayPercentage =
      (memory.processUptimeAfterResult uptime result
        (fun _ => now)).OneHundredTwentyDayPercentage := by
  have hpasses : cleanupPasses (upsertBucket uptime result) (fun _ => now) =
      memory.cleanupOldStatistics (upsertBucket uptime result) thirtyDays now := by
    have h60 := cleanup_after_cleanup (upsertBucket uptime result) thirtyDays sixtyDays now
      (threshold_sixty_le_thirty now)
    have h90 := cleanup_after_cleanup (upsertBucket uptime result) thirtyDays ninetyDays now
      (threshold_ninety_le_thirty now)
    have h120 := cleanup_after_cleanup (upsertBucket uptime result) thirtyDays
      oneHundredTwentyDays now (threshold_oneHundredTwenty_le_thirty now)
    unfold cleanupPasses
    rw [h60, h90, h120]
  have h30 := calculate_after_thirty_day_pass (upsertBucket uptime result) now thirtyDays
    (by rw [negDuration_thirtyDays])
  have h60 := calculate_after_thirty_day_pass (upsertBucket uptime result) now sixtyDays
    (by rw [← negDuration_sixtyDays]; exact threshold_sixty_le_thirty now)
  have h90 := calculate_after_thirty_day_pass (upsertBucket uptime result) now ninetyDays
    (by rw [← negDuration_ninetyDays]; exact threshold_ninety_le_thirty now)
  have h120 := calculate_after_thirty_day_pass (upsertBucket uptime result) now
    oneHundredTwentyDays
    (by rw [← negDuration_oneHundredTwentyDays]; exact threshold_oneHundredTwenty_le_thirty now)
  simp only [memory.processUptimeAfterResult, memory.updateUptimePercentages, hpasses, h30, h60,
    h90, h120, and_self]

/-! ## Claim C20 -/

theorem negDuration_le_neg (d : Int) (h1 : -2 ^ 63 ≤ d) (h2 : d < 2 ^ 63) :
    negDuration d ≤ -d := by
  show ((-d + 2 ^ 63) % 2 ^ 64 - 2 ^ 63 : Int) ≤ -d
  omega

theorem seconds_mono (now x d : Int) (h : x ≤ -d) :
    (now + x) / 1000000000 ≤ (now - d) / 1000000000 := by
  omega

/-- Claim C20: for every duration `d` (an `int64`) and every window `[fromTime, toTime]` with
`fromTime >= now - d` in Unix seconds, the percentage of the core package over the window is
the same before and after `cleanupOldStatistics(uptime, d)` at time `now`. -/
theorem c20_cleanup_preserves_windows_inside_retention (uptime : Uptime) (d : Int) (now : Int)
    (fromTime toTime : Int) (hd1 : -2 ^ 63 ≤ d) (hd2 : d < 2 ^ 63)
    (hfrom : (now - d) / 1000000000 ≤ fromTime) :
    core.calculateUptimePercentage (memory.cleanupOldStatistics uptime d now) fromTime toTime =
      core.calculateUptimePercentage uptime fromTime toTime := by
  have hth : timeUnix (timeAdd now (negDuration d)) ≤ fromTime := by
    have hneg := negDuration_le_neg d hd1 hd2
    have : timeUnix (timeAdd now (negDuration d)) ≤ (now - d) / 1000000000 :=
      seconds_mono now (negDuration d) d hneg
    exact le_trans this hfrom
  rw [core_calculate_eq, core_calculate_eq, cleanupOldStatistics_eq]
  cases hm : uptime.HourlyStatistics with
  | none => rfl
  | some m =>
    simp only [Option.map_some', mapEntries, Option.getD_some]
    have hfilter : (m.filter (fun e => decide (timeUnix (timeAdd now (negDuration d)) ≤ e.1))
        ).filter (inWindow fromTime toTime) = m.filter (inWindow fromTime toTime) := by
      rw [List.filter_filter]
      apply List.filter_congr
      intro e _
      by_cases hw : inWindow fromTime toTime e = true
      · have hge : fromTime ≤ e.1 := by
          simp only [inWindow, Bool.and_eq_true, decide_eq_true_eq] at hw
          exact hw.1
        have : timeUnix (timeAdd now (negDuration d)) ≤ e.1 := le_trans hth hge
        simp [hw, this]
      · simp [hw]
    rw [hfilter]

/-- Witness of claim C20: a 30-day pass 60 days after the epoch and the window of the last 30
days; the bucket of hour 0 is deleted and lies outside the window. -/
theorem c20_witness :
    core.calculateUptimePercentage
        (memory.cleanupOldStatistics
          ⟨some [(0, ⟨3, 2, 10⟩), (2592000, ⟨1, 1, 5⟩)], 0, 0, 0, 0, 0⟩ thirtyDays
          5184000000000000) 2592000 5184000 =
      core.calculateUptimePercentage
        ⟨some [(0, ⟨3, 2, 10⟩), (2592000, ⟨1, 1, 5⟩)], 0, 0, 0, 0, 0⟩ 2592000 5184000 :=
  c20_cleanup_preserves_windows_inside_retention _ thirtyDays 5184000000000000 2592000 5184000
    (by decide) (by decide) (by decide)

/-! ## Claim C19 -/

theorem cleanupThreshold_fixed_clock (now maxAge : Int) :
    sql.cleanupThreshold maxAge (fun _ => now) =
      if maxAge < now - days 60 then days 65
      else if maxAge < now - days 14 then days 15
      else if maxAge < now - days 7 then days 8
      else days 35 := by
  have e60 : timeAdd now (-longTermUptimeRetentionDuration) = now - days 60 := by
    show now + -(60 * 24 * (3600 * 1000000000)) = now - 60 * 86400000000000
    omega
  have e14 : timeAdd now (-mediumTermUptimeRetentionDuration) = now - days 14 := by
    show now + -(14 * 24 * (3600 * 1000000000)) = now - 14 * 86400000000000
    omega
  have e7 : timeAdd now (-shortTermUptimeRetentionDuration) = now - days 7 := by
    show now + -(7 * 24 * (3600 * 1000000000)) = now - 7 * 86400000000000
    omega
  have c65 : longTermUptimeCleanupThreshold = days 65 := by decide
  have c15 : mediumTermUptimeCleanupThreshold = days 15 := by decide
  have c8 : shortTermUptimeCleanupThreshold = days 8 := by decide
  have c35 : customUptimeCleanupThreshold = days 35 := by decide
  simp only [sql.cleanupThreshold, timeBefore, e60, e14, e7, c65, c15, c8, c35,
    decide_eq_true_eq]

theorem deleteBound_fixed_clock (now maxAge : Int) :
    sql.deleteBound maxAge (fun _ => now) =
      if maxAge < now - 5184000000000000 then (maxAge - 5616000000000000) / 1000000000
      else if maxAge < now - 1209600000000000 then (maxAge - 1296000000000000) / 1000000000
      else if maxAge < now - 604800000000000 then (maxAge - 691200000000000) / 1000000000
      else (maxAge - 3024000000000000) / 1000000000 := by
  rw [deleteBound_eq, cleanupThreshold_fixed_clock]
  have d60 : days 60 = 5184000000000000 := by decide
  have d14 : days 14 = 1209600000000000 := by decide
  have d7 : days 7 = 604800000000000 := by decide
  have d65 : days 65 = 5616000000000000 := by decide
  have d15 : days 15 = 1296000000000000 := by decide
  have d8 : days 8 = 691200000000000 := by decide
  have d35 : days 35 = 3024000000000000 := by decide
  rw [d60, d14, d7, d65, d15, d8, d35]
  split_ifs <;> rfl

/-- Claim C19, amended: with one fixed reading `now` of the clock and two retention boundaries
`a <= b`, the deletion cutoff for `maxAge = a` is not later than the cutoff for `maxAge = b`
whenever `b` is before `now - 7 days`, or `a` is not before `now - 7 days`, or `a` is before
`now - 60 days`. -/
theorem c19_cutoff_monotone_outside_default_tier (now a b : Int) (hab : a ≤ b)
    (htier : b < now - days 7 ∨ now - days 7 ≤ a ∨ a < now - days 60) :
    sql.deleteBound a (fun _ => now) ≤ sql.deleteBound b (fun _ => now) := by
  have d60 : days 60 = 5184000000000000 := by decide
  have d7 : days 7 = 604800000000000 := by decide
  rw [d60, d7] at htier
  rw [deleteBound_fixed_clock, deleteBound_fixed_clock]
  split_ifs <;> omega

/-- Witness of claim C19 as amended: 100 days after the epoch, the boundaries of day 30 and
day 80 have the cutoffs of day -35 and day 65. -/
theorem c19_witness :
    sql.deleteBound 2592000000000000 (fun _ => 8640000000000000) ≤
      sql.deleteBound 6912000000000000 (fun _ => 8640000000000000) :=
  c19_cutoff_monotone_outside_default_tier 8640000000000000 2592000000000000
    6912000000000000 (by decide) (Or.inl (by decide))

/-- Counterexample to claim C19 as stated: 100 days after the epoch, the boundary one
nanosecond before day 93 has the 8-day buffer and the cutoff 7343999, and the later boundary of
day 93 has the 35-day buffer and the earlier cutoff 5011200. -/
theorem c19_counterexample :
    (8035199999999999 : Int) ≤ 8035200000000000 ∧
      sql.deleteBound 8035199999999999 (fun _ => 8640000000000000) = 7343999 ∧
      sql.deleteBound 8035200000000000 (fun _ => 8640000000000000) = 5011200 ∧
      ¬ (sql.deleteBound 8035199999999999 (fun _ => 8640000000000000) ≤
        sql.deleteBound 8035200000000000 (fun _ => 8640000000000000)) := by
  decide

/-! ## Calendar arithmetic -/

/-- The day count of a date given by its March-based parts. -/
theorem daysFromCivil_parts (era c q e doy : Int) (hc0 : 0 ≤ c) (hc : c ≤ 3) (hq0 : 0 ≤ q)
    (hq : q ≤ 24) (he0 : 0 ≤ e) (he : e ≤ 3) (hd0 : 0 ≤ doy) (hd : doy ≤ 365) (mp m d : Int)
    (hmp : mp = (5 * doy + 2) / 153) (hdd : d = doy - (153 * mp + 2) / 5 + 1)
    (hm : m = if mp < 10 then mp + 3 else mp - 9) :
    daysFromCivil (if m ≤ 2 then 400 * era + 100 * c + 4 * q + e + 1
        else 400 * era + 100 * c + 4 * q + e) m d =
      146097 * era + 36524 * c + 1461 * q + 365 * e + doy - 719468 := by
  have hmp0 : 0 ≤ mp := by omega
  have hmp11 : mp ≤ 11 := by omega
  have hm1 : 1 ≤ m := by split_ifs at hm <;> omega
  have hm12 : m ≤ 12 := by split_ifs at hm <;> omega
  have hdiv : (m - 1) / 12 = 0 := by omega
  have hmod : (m - 1) % 12 + 1 = m := by omega
  simp only [daysFromCivil, hdiv, hmod, add_zero]
  by_cases h2 : m ≤ 2
  · have hmp' : m + 9 = mp := by split_ifs at hm <;> omega
    simp only [h2, if_true, hmp']
    have e1 : 400 * era + 100 * c + 4 * q + e + 1 - 1 = 400 * era + (100 * c + 4 * q + e) := by
      ring
    rw [e1]
    generalize hY : 100 * c + 4 * q + e = Y
    have hY0 : 0 ≤ Y := by omega
    have hY1 : Y ≤ 399 := by omega
    have hera : (400 * era + Y) / 400 = era := by omega
    rw [hera]
    have h4 : (400 * era + Y - era * 400) / 4 = 25 * c + q := by omega
    have h100 : (400 * era + Y - era * 400) / 100 = c := by omega
    rw [h4, h100]
    omega
  · have hmp' : m - 3 = mp := by split_ifs at hm <;> omega
    simp only [h2, if_false, hmp']
    have e1 : 400 * era + 100 * c + 4 * q + e = 400 * era + (100 * c + 4 * q + e) := by ring
    rw [e1]
    generalize hY : 100 * c + 4 * q + e = Y
    have hY0 : 0 ≤ Y := by omega
    have hY1 : Y ≤ 399 := by omega
    have hera : (400 * era + Y) / 400 = era := by omega
    rw [hera]
    have h4 : (400 * era + Y - era * 400) / 4 = 25 * c + q := by omega
    have h100 : (400 * era + Y - era * 400) / 100 = c := by omega
    rw [h4, h100]
    omega

theorem days_civil (z : Int) :
    daysFromCivil (civilFromDays z).1 (civilFromDays z).2.1 (civilFromDays z).2.2 = z := by
  simp only [civilFromDays]
  generalize hera : (z + 719468) / 146097 = era
  generalize hdoe : (z + 719468) % 146097 = doe
  have hz : z = 146097 * era + doe - 719468 := by omega
  have hdoe0 : 0 ≤ doe := by omega
  have hdoe1 : doe ≤ 146096 := by omega
  generalize hc : (if doe / 36524 < 3 then doe / 36524 else 3) = c
  have hc0 : 0 ≤ c := by split_ifs at hc <;> omega
  have hc3 : c ≤ 3 := by split_ifs at hc <;> omega
  have hr0 : 0 ≤ doe - 36524 * c := by split_ifs at hc <;> omega
  have hr1 : doe - 36524 * c ≤ 36524 := by split_ifs at hc <;> omega
  generalize hr : doe - 36524 * c = r1 at *
  generalize hq : r1 / 1461 = q
  generalize hr2 : r1 % 1461 = r2
  have hq0 : 0 ≤ q := by omega
  have hq24 : q ≤ 24 := by omega
  have hr20 : 0 ≤ r2 := by omega
  have hr21 : r2 ≤ 1460 := by omega
  generalize he : (if r2 / 365 < 3 then r2 / 365 else 3) = e
  have he0 : 0 ≤ e := by split_ifs at he <;> omega
  have he3 : e ≤ 3 := by split_ifs at he <;> omega
  have hdoy0 : 0 ≤ r2 - 365 * e := by split_ifs at he <;> omega
  have hdoy1 : r2 - 365 * e ≤ 365 := by split_ifs at he <;> omega
  generalize hdoy : r2 - 365 * e = doy at *
  have key := daysFromCivil_parts era c q e doy hc0 hc3 hq0 hq24 he0 he3 hdoy0 hdoy1 _ _ _
    rfl rfl rfl
  rw [key]
  omega

/-- The date of a day count given by its March-based parts. -/
theorem civilFromDays_parts (era c q e doy : Int) (hc0 : 0 ≤ c) (hc : c ≤ 3) (hq0 : 0 ≤ q)
    (hq : q ≤ 24) (he0 : 0 ≤ e) (he : e ≤ 3) (hd0 : 0 ≤ doy) (hd : doy ≤ 365)
    (hleap : doy = 365 → e = 3 ∧ (q < 24 ∨ c = 3)) :
    civilFromDays (146097 * era + 36524 * c + 1461 * q + 365 * e + doy - 719468) =
      (if (if (5 * doy + 2) / 153 < 10 then (5 * doy + 2) / 153 + 3
            else (5 * doy + 2) / 153 - 9) ≤ 2
        then 400 * era + 100 * c + 4 * q + e + 1 else 400 * era + 100 * c + 4 * q + e,
        if (5 * doy + 2) / 153 < 10 then (5 * doy + 2) / 153 + 3 else (5 * doy + 2) / 153 - 9,
        doy - (153 * ((5 * doy + 2) / 153) + 2) / 5 + 1) := by
  have h1 : 146097 * era + 36524 * c + 1461 * q + 365 * e + doy - 719468 + 719468 =
      146097 * era + (36524 * c + 1461 * q + 365 * e + doy) := by ring
  have hera : (146097 * era + (36524 * c + 1461 * q + 365 * e + doy)) / 146097 = era := by
    omega
  have hdoe : (146097 * era + (36524 * c + 1461 * q + 365 * e + doy)) % 146097 =
      36524 * c + 1461 * q + 365 * e + doy := by omega
  have hcc : (if (36524 * c + 1461 * q + 365 * e + doy) / 36524 < 3
      then (36524 * c + 1461 * q + 365 * e + doy) / 36524 else 3) = c := by
    split_ifs <;> omega
  have hr1 : 36524 * c + 1461 * q + 365 * e + doy - 36524 * c = 1461 * q + 365 * e + doy := by
    ring
  have hqq : (1461 * q + 365 * e + doy) / 1461 = q := by omega
  have hr2 : (1461 * q + 365 * e + doy) % 1461 = 365 * e + doy := by omega
  have hee : (if (365 * e + doy) / 365 < 3 then (365 * e + doy) / 365 else 3) = e := by
    split_ifs <;> omega
  have hdoy : 365 * e + doy - 365 * e = doy := by ring
  simp only [civilFromDays, h1, hera, hdoe, hcc, hr1, hqq, hr2, hee, hdoy]

/-- The date of the day count of a March-based year, month and day. -/
theorem civilFromDays_march (yy mp day : Int) (hmp0 : 0 ≤ mp) (hmp : mp ≤ 11) (hd1 : 1 ≤ day)
    (hlen : day ≤ (153 * (mp + 1) + 2) / 5 - (153 * mp + 2) / 5)
    (hfeb : mp = 11 → day ≤ 28 ∨
      (day = 29 ∧ (yy + 1) % 4 = 0 ∧ ((yy + 1) % 100 ≠ 0 ∨ (yy + 1) % 400 = 0))) :
    civilFromDays (yy / 400 * 146097 + (yy - yy / 400 * 400) * 365 + (yy - yy / 400 * 400) / 4
        - (yy - yy / 400 * 400) / 100 + ((153 * mp + 2) / 5 + day - 1) - 719468) =
      (if mp < 10 then yy else yy + 1, if mp < 10 then mp + 3 else mp - 9, day) := by
  generalize hera : yy / 400 = era
  generalize hY : yy - era * 400 = Y
  have hY0 : 0 ≤ Y := by omega
  have hY1 : Y ≤ 399 := by omega
  generalize hc : Y / 100 = c
  generalize hq : Y % 100 / 4 = q
  generalize he : Y % 4 = e
  have h4 : Y / 4 = 25 * c + q := by omega
  generalize hdoy : (153 * mp + 2) / 5 + day - 1 = doy
  have hdoy0 : 0 ≤ doy := by omega
  have hdoy1 : doy ≤ 365 := by omega
  have hmpp : (5 * doy + 2) / 153 = mp := by
    have hcases : mp = 0 ∨ mp = 1 ∨ mp = 2 ∨ mp = 3 ∨ mp = 4 ∨ mp = 5 ∨ mp = 6 ∨ mp = 7 ∨
        mp = 8 ∨ mp = 9 ∨ mp = 10 ∨ mp = 11 := by omega
    rcases hcases with h | h | h | h | h | h | h | h | h | h | h | h <;> subst h <;> omega
  have hleap : doy = 365 → e = 3 ∧ (q < 24 ∨ c = 3) := by
    intro h365
    have h11 : mp = 11 := by omega
    rcases hfeb h11 with h28 | ⟨h29, hl4, hl⟩
    · omega
    · constructor
      · omega
      · omega
  have hz : era * 146097 + Y * 365 + Y / 4 - c + doy - 719468 =
      146097 * era + 36524 * c + 1461 * q + 365 * e + doy - 719468 := by omega
  rw [hz, civilFromDays_parts era c q e doy (by omega) (by omega) (by omega) (by omega)
    (by omega) (by omega) hdoy0 hdoy1 hleap, hmpp]
  have hday : doy - (153 * mp + 2) / 5 + 1 = day := by omega
  have hyear : 400 * era + 100 * c + 4 * q + e = yy := by omega
  rw [hday, hyear]
  by_cases h10 : mp < 10
  · have : ¬ mp + 3 ≤ 2 := by omega
    simp [h10, this]
  · have : mp - 9 ≤ 2 := by omega
    simp [h10, this]

theorem civil_days (year month day : Int) (hm1 : 1 ≤ month) (hm12 : month ≤ 12)
    (hd1 : 1 ≤ day) (hd : day ≤ daysIn year month) :
    civilFromDays (daysFromCivil year month day) = (year, month, day) := by
  have hdiv : (month - 1) / 12 = 0 := by omega
  have hmod : (month - 1) % 12 + 1 = month := by omega
  simp only [daysFromCivil, hdiv, hmod, add_zero]
  by_cases h2 : month ≤ 2
  · simp only [h2, if_true]
    have hlen : day ≤ (153 * (month + 9 + 1) + 2) / 5 - (153 * (month + 9) + 2) / 5 := by
      unfold daysIn at hd
      have hcases : month = 1 ∨ month = 2 := by omega
      rcases hcases with h | h
      · subst h
        norm_num at hd ⊢
        exact hd
      · subst h
        norm_num at hd ⊢
        split_ifs at hd <;> omega
    have hfeb : month + 9 = 11 → day ≤ 28 ∨ (day = 29 ∧ (year - 1 + 1) % 4 = 0 ∧
        ((year - 1 + 1) % 100 ≠ 0 ∨ (year - 1 + 1) % 400 = 0)) := by
      intro h11
      have hm : month = 2 := by omega
      subst hm
      unfold daysIn at hd
      simp only [if_true] at hd
      by_cases hl : isLeap year = true
      · rw [if_pos hl] at hd
        have e1 : year - 1 + 1 = year := by ring
        rw [e1]
        simp only [isLeap, Bool.and_eq_true, Bool.or_eq_true, decide_eq_true_eq] at hl
        by_cases h28 : day ≤ 28
        · exact Or.inl h28
        · exact Or.inr ⟨by omega, hl.1, hl.2⟩
      · rw [if_neg hl] at hd
        exact Or.inl hd
    rw [civilFromDays_march (year - 1) (month + 9) day (by omega) (by omega) hd1 hlen hfeb]
    have h10 : ¬ month + 9 < 10 := by omega
    simp only [h10, if_false]
    refine Prod.ext (by simp) (Prod.ext (by simp) rfl)
  · simp only [h2, if_false]
    have hlen : day ≤ (153 * (month - 3 + 1) + 2) / 5 - (153 * (month - 3) + 2) / 5 := by
      unfold daysIn at hd
      have hcases : month = 3 ∨ month = 4 ∨ month = 5 ∨ month = 6 ∨ month = 7 ∨ month = 8 ∨
          month = 9 ∨ month = 10 ∨ month = 11 ∨ month = 12 := by omega
      rcases hcases with h | h | h | h | h | h | h | h | h | h <;> subst h <;>
        norm_num at hd ⊢ <;> exact hd
    have hfeb : month - 3 = 11 → day ≤ 28 ∨ (day = 29 ∧ (year + 1) % 4 = 0 ∧
        ((year + 1) % 100 ≠ 0 ∨ (year + 1) % 400 = 0)) := by
      intro h11
      omega
    rw [civilFromDays_march year (month - 3) day (by omega) (by omega) hd1 hlen hfeb]
    have h10 : month - 3 < 10 := by omega
    simp only [h10, if_true]
    refine Prod.ext rfl (Prod.ext (by simp) rfl)

theorem civilFromDays_range (z : Int) :
    1 ≤ (civilFromDays z).2.1 ∧ (civilFromDays z).2.1 ≤ 12 ∧ 1 ≤ (civilFromDays z).2.2 := by
  simp only [civilFromDays]
  generalize (z + 719468) % 146097 = doe
  generalize (if doe / 36524 < 3 then doe / 36524 else 3) = c
  have hr20 : 0 ≤ (doe - 36524 * c) % 1461 := by omega
  have hr21 : (doe - 36524 * c) % 1461 ≤ 1460 := by omega
  generalize (doe - 36524 * c) % 1461 = r2 at *
  generalize he : (if r2 / 365 < 3 then r2 / 365 else 3) = e
  have hdoy0 : 0 ≤ r2 - 365 * e := by split_ifs at he <;> omega
  have hdoy1 : r2 - 365 * e ≤ 365 := by split_ifs at he <;> omega
  generalize r2 - 365 * e = doy at *
  have hmp0 : 0 ≤ (5 * doy + 2) / 153 := by omega
  have hmp1 : (5 * doy + 2) / 153 ≤ 11 := by omega
  have hday : (153 * ((5 * doy + 2) / 153) + 2) / 5 ≤ doy := by omega
  generalize (5 * doy + 2) / 153 = mp at *
  refine ⟨?_, ?_, ?_⟩
  · split_ifs <;> omega
  · split_ifs <;> omega
  · omega

theorem civilFromDays_day_le (z : Int) : (civilFromDays z).2.2 ≤ 31 := by
  simp only [civilFromDays]
  generalize (z + 719468) % 146097 = doe
  generalize (if doe / 36524 < 3 then doe / 36524 else 3) = c
  have hr20 : 0 ≤ (doe - 36524 * c) % 1461 := by omega
  have hr21 : (doe - 36524 * c) % 1461 ≤ 1460 := by omega
  generalize (doe - 36524 * c) % 1461 = r2 at *
  generalize he : (if r2 / 365 < 3 then r2 / 365 else 3) = e
  have hdoy0 : 0 ≤ r2 - 365 * e := by split_ifs at he <;> omega
  have hdoy1 : r2 - 365 * e ≤ 365 := by split_ifs at he <;> omega
  generalize r2 - 365 * e = doy at *
  have hmp0 : 0 ≤ (5 * doy + 2) / 153 := by omega
  have hmp1 : (5 * doy + 2) / 153 ≤ 11 := by omega
  generalize hmp : (5 * doy + 2) / 153 = mp at *
  have hcases : mp = 0 ∨ mp = 1 ∨ mp = 2 ∨ mp = 3 ∨ mp = 4 ∨ mp = 5 ∨ mp = 6 ∨ mp = 7 ∨
      mp = 8 ∨ mp = 9 ∨ mp = 10 ∨ mp = 11 := by omega
  rcases hcases with h | h | h | h | h | h | h | h | h | h | h | h <;> subst h <;> omega

theorem daysIn_bounds (year month : Int) : 28 ≤ daysIn year month ∧ daysIn year month ≤ 31 := by
  unfold daysIn
  split_ifs <;> omega

theorem daysFromCivil_day (year month day : Int) :
    daysFromCivil year month day = daysFromCivil year month 1 + (day - 1) := by
  simp only [daysFromCivil]
  omega

theorem march_year_length (yy : Int) :
    (yy + 1) / 400 * 146097 + (yy + 1 - (yy + 1) / 400 * 400) * 365
        + (yy + 1 - (yy + 1) / 400 * 400) / 4 - (yy + 1 - (yy + 1) / 400 * 400) / 100 =
      yy / 400 * 146097 + (yy - yy / 400 * 400) * 365 + (yy - yy / 400 * 400) / 4
        - (yy - yy / 400 * 400) / 100 + 365 + (if isLeap (yy + 1) then 1 else 0) := by
  have hl : isLeap (yy + 1) = true ↔
      ((yy + 1) % 4 = 0 ∧ ((yy + 1) % 100 ≠ 0 ∨ (yy + 1) % 400 = 0)) := by
    simp [isLeap]
  by_cases h : isLeap (yy + 1) = true
  · rw [if_pos h]
    have := hl.mp h
    omega
  · rw [if_neg h]
    have : ¬ ((yy + 1) % 4 = 0 ∧ ((yy + 1) % 100 ≠ 0 ∨ (yy + 1) % 400 = 0)) :=
      fun hh => h (hl.mpr hh)
    omega

/-- The first day of the next month comes as many days later as the month has. -/
theorem daysFromCivil_next_month (year month : Int) (hm1 : 1 ≤ month) (hm12 : month ≤ 12) :
    daysFromCivil year (month + 1) 1 = daysFromCivil year month 1 + daysIn year month := by
  have hcases : month = 1 ∨ month = 2 ∨ month = 3 ∨ month = 4 ∨ month = 5 ∨ month = 6 ∨
      month = 7 ∨ month = 8 ∨ month = 9 ∨ month = 10 ∨ month = 11 ∨ month = 12 := by omega
  have hy := march_year_length (year - 1)
  have e1 : year - 1 + 1 = year := by ring
  rw [e1] at hy
  by_cases hleap : isLeap year = true
  · rw [if_pos hleap] at hy
    rcases hcases with h | h | h | h | h | h | h | h | h | h | h | h <;> subst h <;>
      simp only [daysFromCivil, daysIn, hleap] <;> norm_num <;> omega
  · rw [if_neg hleap] at hy
    rcases hcases with h | h | h | h | h | h | h | h | h | h | h | h <;> subst h <;>
      simp only [daysFromCivil, daysIn, hleap] <;> norm_num <;> omega

/-- A day past the end of a month is a day of the next month. -/
theorem daysFromCivil_overflow (year month day : Int) (hm1 : 1 ≤ month) (hm12 : month ≤ 12) :
    daysFromCivil year month day =
      daysFromCivil year (month + 1) (day - daysIn year month) := by
  rw [daysFromCivil_day year month day, daysFromCivil_day year (month + 1),
    daysFromCivil_next_month year month hm1 hm12]
  omega

theorem daysFromCivil_month_zero (year day : Int) :
    daysFromCivil year 0 day = daysFromCivil (year - 1) 12 day := by
  simp only [daysFromCivil]
  norm_num
  rw [← Int.sub_eq_add_neg]

/-- The date of the normalized date one month before a date. -/
theorem civil_of_previous_month (year month day : Int) (hm1 : 1 ≤ month) (hm12 : month ≤ 12)
    (hd1 : 1 ≤ day) (hd31 : day ≤ 31) :
    civilFromDays (daysFromCivil (year + 0) (month + -1) (day + 0)) =
      if day ≤ daysIn (if month = 1 then year - 1 else year)
          (if month = 1 then 12 else month - 1) then
        (if month = 1 then year - 1 else year, if month = 1 then 12 else month - 1, day)
      else
        (year, month, day - daysIn (if month = 1 then year - 1 else year)
          (if month = 1 then 12 else month - 1)) := by
  simp only [add_zero]
  by_cases h1 : month = 1
  · subst h1
    have e0 : (1 : Int) + -1 = 0 := by norm_num
    have hdec : daysIn (year - 1) 12 = 31 := by simp [daysIn]
    simp only [if_true, e0, hdec, if_pos hd31]
    rw [daysFromCivil_month_zero]
    exact civil_days (year - 1) 12 day (by norm_num) (by norm_num) hd1 (by rw [hdec]; exact hd31)
  · have e0 : month + -1 = month - 1 := by ring
    simp only [h1, if_false, e0]
    by_cases hday : day ≤ daysIn year (month - 1)
    · rw [if_pos hday]
      exact civil_days year (month - 1) day (by omega) (by omega) hd1 hday
    · rw [if_neg hday, daysFromCivil_overflow year (month - 1) day (by omega) (by omega)]
      have e1 : month - 1 + 1 = month := by ring
      rw [e1]
      have hb := daysIn_bounds year (month - 1)
      have hb2 := daysIn_bounds year month
      exact civil_days year month _ hm1 hm12 (by omega) (by omega)

/-- The date of the normalized date one year before a date. -/
theorem civil_of_previous_year (year month day : Int) (hm1 : 1 ≤ month) (hm12 : month ≤ 12)
    (hd1 : 1 ≤ day) (hd31 : day ≤ 31) :
    civilFromDays (daysFromCivil (year + -1) (month + 0) (day + 0)) =
      if day ≤ daysIn (year - 1) month then (year - 1, month, day)
      else (year - 1, month + 1, day - daysIn (year - 1) month) := by
  have e0 : year + -1 = year - 1 := by ring
  simp only [add_zero, e0]
  by_cases hday : day ≤ daysIn (year - 1) month
  · rw [if_pos hday]
    exact civil_days (year - 1) month day hm1 hm12 hd1 hday
  · rw [if_neg hday, daysFromCivil_overflow (year - 1) month day hm1 hm12]
    have hb := daysIn_bounds (year - 1) month
    have hb2 := daysIn_bounds (year - 1) (month + 1)
    have h12 : month ≠ 12 := by
      intro h
      subst h
      have : daysIn (year - 1) 12 = 31 := by simp [daysIn]
      omega
    exact civil_days (year - 1) (month + 1) _ (by omega) (by omega) (by omega) (by omega)

/-! ## Dates in a location -/

theorem zoneSettled_of_fixed_offset (loc : Location) (offset : Int)
    (h : ∀ sec, (loc sec).offset = offset) (wall : Int) : zoneSettled loc wall := by
  unfold zoneSettled
  rw [h, h]

/-- In a settled reading `time.Date` subtracts the offset found at the reading. -/
theorem dateSeconds_settled (loc : Location) (year month day secondOfDay : Int)
    (h : zoneSettled loc (daysFromCivil year month day * 86400 + secondOfDay)) :
    dateSeconds loc year month day secondOfDay =
      daysFromCivil year month day * 86400 + secondOfDay
        - (loc (daysFromCivil year month day * 86400 + secondOfDay)).offset := by
  unfold zoneSettled at h
  unfold dateSeconds
  simp only
  by_cases h0 : (loc (daysFromCivil year month day * 86400 + secondOfDay)).offset = 0
  · simp [h0]
  · rw [if_pos h0]
    split_ifs
    · rw [h]
    · rfl

theorem timeUnix_seconds_nanos (sec t : Int) :
    timeUnix (sec * 1000000000 + t % 1000000000) = sec ∧
      (sec * 1000000000 + t % 1000000000) % 1000000000 = t % 1000000000 := by
  constructor
  · show (sec * 1000000000 + t % 1000000000) / 1000000000 = sec
    omega
  · omega

/-- The instant `t.AddDate(years, months, days)` when the reading it asks for is settled:
its Unix second, its wall clock reading, its date, its clock and its nanosecond. -/
theorem timeAddDate_settled (loc : Location) (t : Int) (years months days : Int)
    (h : zoneSettled loc (wallSeconds loc t years months days)) :
    timeUnix (timeAddDate loc t years months days) =
        wallSeconds loc t years months days
          - (loc (wallSeconds loc t years months days)).offset ∧
      localSeconds loc (timeAddDate loc t years months days) =
        wallSeconds loc t years months days ∧
      timeDate loc (timeAddDate loc t years months days) =
        civilFromDays (daysFromCivil ((timeDate loc t).1 + years)
          ((timeDate loc t).2.1 + months) ((timeDate loc t).2.2 + days)) ∧
      timeClock loc (timeAddDate loc t years months days) = timeClock loc t ∧
      timeAddDate loc t years months days % 1000000000 = t % 1000000000 := by
  have hds := dateSeconds_settled loc ((timeDate loc t).1 + years)
    ((timeDate loc t).2.1 + months) ((timeDate loc t).2.2 + days) (timeClock loc t) h
  have hunix : timeUnix (timeAddDate loc t years months days) =
      wallSeconds loc t years months days
        - (loc (wallSeconds loc t years months days)).offset := by
    unfold timeAddDate
    rw [(timeUnix_seconds_nanos _ t).1, hds]
    rfl
  have hlocal : localSeconds loc (timeAddDate loc t years months days) =
      wallSeconds loc t years months days := by
    unfold localSeconds
    rw [hunix]
    unfold zoneSettled at h
    rw [h]
    omega
  have hc0 : 0 ≤ timeClock loc t := by
    unfold timeClock
    omega
  have hc1 : timeClock loc t < 86400 := by
    unfold timeClock
    omega
  refine ⟨hunix, hlocal, ?_, ?_, ?_⟩
  · have hq : wallSeconds loc t years months days / 86400 =
        daysFromCivil ((timeDate loc t).1 + years) ((timeDate loc t).2.1 + months)
          ((timeDate loc t).2.2 + days) := by
      unfold wallSeconds
      omega
    show civilFromDays (localSeconds loc (timeAddDate loc t years months days) / 86400) = _
    rw [hlocal, hq]
  · have : timeClock loc (timeAddDate loc t years months days) =
        wallSeconds loc t years months days % 86400 := by
      unfold timeClock
      rw [hlocal]
    rw [this]
    unfold wallSeconds
    omega
  · unfold timeAddDate
    exact (timeUnix_seconds_nanos _ t).2

theorem timeDate_range (loc : Location) (t : Int) :
    1 ≤ (timeDate loc t).2.1 ∧ (timeDate loc t).2.1 ≤ 12 ∧ 1 ≤ (timeDate loc t).2.2 ∧
      (timeDate loc t).2.2 ≤ 31 :=
  ⟨(civilFromDays_range _).1, (civilFromDays_range _).2.1, (civilFromDays_range _).2.2,
    civilFromDays_day_le _⟩

/-- On January 31 the reading that `AddDate(0, -1, 0)` asks for is 31 days before the wall
clock reading of the instant. -/
theorem wallSeconds_january_31 (loc : Location) (t : Int) (year : Int)
    (hdate : timeDate loc t = (year, 1, 31)) :
    wallSeconds loc t 0 (-1) 0 = localSeconds loc t - 31 * 86400 := by
  have hz : daysFromCivil (timeDate loc t).1 (timeDate loc t).2.1 (timeDate loc t).2.2 =
      localSeconds loc t / 86400 := days_civil (localSeconds loc t / 86400)
  rw [hdate] at hz
  simp only at hz
  have hdec : daysFromCivil year 0 31 = daysFromCivil year 1 31 - 31 := by
    simp only [daysFromCivil]
    norm_num
    omega
  unfold wallSeconds timeClock
  rw [hdate]
  simp only [add_zero]
  have e0 : (1 : Int) + -1 = 0 := by norm_num
  rw [e0, hdec, hz]
  omega

/-! ## Claim C15 -/

/-- Claim C15, amended: `UptimeLastMonth` and `UptimeLastYear` query the window from
`now.AddDate(0, -1, 0)` and `now.AddDate(-1, 0, 0)` to `now`, in Unix seconds. When `now` is an
instant of January 31 in its location and the wall clock reading asked for is settled in that
location, as every reading is in a location with one fixed offset, the start of
`UptimeLastMonth` is the same time of day on December 31 of the previous year; when moreover
the offset there is the offset at `now`, the start is 31 days and not 30 days before `now`.
In general, for a settled reading, the start has the clock of `now` and the date of `now`
with the month or the year decreased by one when that day exists, and otherwise the date as
many days into the following month as the day exceeds the month. -/
theorem c15_last_month_and_year_by_calendar (u : Uptime) (loc : Location) (now : Int) :
    core.UptimeLastMonth u loc now =
      core.calculateUptimePercentage u (timeUnix (timeAddDate loc now 0 (-1) 0))
        (timeUnix now) ∧
    core.UptimeLastYear u loc now =
      core.calculateUptimePercentage u (timeUnix (timeAddDate loc now (-1) 0 0))
        (timeUnix now) ∧
    (∀ year : Int, timeDate loc now = (year, 1, 31) →
      zoneSettled loc (wallSeconds loc now 0 (-1) 0) →
      timeDate loc (timeAddDate loc now 0 (-1) 0) = (year - 1, 12, 31) ∧
      timeClock loc (timeAddDate loc now 0 (-1) 0) = timeClock loc now ∧
      timeAddDate loc now 0 (-1) 0 % 1000000000 = now % 1000000000 ∧
      ((loc (wallSeconds loc now 0 (-1) 0)).offset = (loc (timeUnix now)).offset →
        timeAddDate loc now 0 (-1) 0 = now - days 31 ∧
        timeAddDate loc now 0 (-1) 0 ≠ now - days 30 ∧
        core.UptimeLastMonth u loc now =
          core.calculateUptimePercentage u (timeUnix (now - days 31)) (timeUnix now))) ∧
    (∀ year month day : Int, timeDate loc now = (year, month, day) →
      zoneSettled loc (wallSeconds loc now 0 (-1) 0) →
      timeDate loc (timeAddDate loc now 0 (-1) 0) =
          (if day ≤ daysIn (if month = 1 then year - 1 else year)
              (if month = 1 then 12 else month - 1) then
            (if month = 1 then year - 1 else year, if month = 1 then 12 else month - 1, day)
          else
            (year, month, day - daysIn (if month = 1 then year - 1 else year)
              (if month = 1 then 12 else month - 1))) ∧
        timeClock loc (timeAddDate loc now 0 (-1) 0) = timeClock loc now) ∧
    (∀ year month day : Int, timeDate loc now = (year, month, day) →
      zoneSettled loc (wallSeconds loc now (-1) 0 0) →
      timeDate loc (timeAddDate loc now (-1) 0 0) =
          (if day ≤ daysIn (year - 1) month then (year - 1, month, day)
          else (year - 1, month + 1, day - daysIn (year - 1) month)) ∧
        timeClock loc (timeAddDate loc now (-1) 0 0) = timeClock loc now) ∧
    (∀ offset : Int, (∀ sec, (loc sec).offset = offset) → ∀ wall, zoneSettled loc wall) := by
  have hmonth : ∀ year month day : Int, timeDate loc now = (year, month, day) →
      zoneSettled loc (wallSeconds loc now 0 (-1) 0) →
      timeDate loc (timeAddDate loc now 0 (-1) 0) =
          (if day ≤ daysIn (if month = 1 then year - 1 else year)
              (if month = 1 then 12 else month - 1) then
            (if month = 1 then year - 1 else year, if month = 1 then 12 else month - 1, day)
          else
            (year, month, day - daysIn (if month = 1 then year - 1 else year)
              (if month = 1 then 12 else month - 1))) ∧
        timeClock loc (timeAddDate loc now 0 (-1) 0) = timeClock loc now := by
    intro year month day hdate hsettled
    have hs := timeAddDate_settled loc now 0 (-1) 0 hsettled
    have hr := timeDate_range loc now
    rw [hdate] at hr
    simp only at hr
    refine ⟨?_, hs.2.2.2.1⟩
    rw [hs.2.2.1, hdate]
    exact civil_of_previous_month year month day hr.1 hr.2.1 hr.2.2.1 hr.2.2.2
  refine ⟨rfl, rfl, ?_, hmonth, ?_, ?_⟩
  · intro year hdate hsettled
    have hs := timeAddDate_settled loc now 0 (-1) 0 hsettled
    have hm := hmonth year 1 31 hdate hsettled
    have hdec : daysIn (year - 1) 12 = 31 := by simp [daysIn]
    simp only [if_true, hdec, le_refl] at hm
    refine ⟨hm.1, hm.2, hs.2.2.2.2, ?_⟩
    intro hoff
    have hwall := wallSeconds_january_31 loc now year hdate
    have hunix : timeUnix (timeAddDate loc now 0 (-1) 0) = timeUnix now - 31 * 86400 := by
      rw [hs.1, hoff, hwall]
      unfold localSeconds
      omega
    have hnanos := hs.2.2.2.2
    have key : ∀ r n : Int, r / 1000000000 = n / 1000000000 - 31 * 86400 →
        r % 1000000000 = n % 1000000000 → r = n - 31 * 86400000000000 := by
      intro r n h1 h2
      omega
    have heq : timeAddDate loc now 0 (-1) 0 = now - days 31 := key _ _ hunix hnanos
    refine ⟨heq, ?_, ?_⟩
    · rw [heq]
      have hne : ∀ n : Int, n - 31 * 86400000000000 ≠ n - 30 * 86400000000000 := by
        intro n
        omega
      exact hne now
    · show core.calculateUptimePercentage u (timeUnix (timeAddDate loc now 0 (-1) 0))
        (timeUnix now) = _
      rw [heq]
  · intro year month day hdate hsettled
    have hs := timeAddDate_settled loc now (-1) 0 0 hsettled
    have hr := timeDate_range loc now
    rw [hdate] at hr
    simp only at hr
    refine ⟨?_, hs.2.2.2.1⟩
    rw [hs.2.2.1, hdate]
    exact civil_of_previous_year year month day hr.1 hr.2.1 hr.2.2.1 hr.2.2.2
  · intro offset hfixed wall
    exact zoneSettled_of_fixed_offset loc offset hfixed wall

/-- Witness of claim C15 as amended: in the fixed zone +09:00, 08:00 of January 31, 2024
(1706655600 s, still January 30 in UTC) has the start 08:00 of December 31, 2023
(1703977200 s); and 00:00 of March 1, 2024 there (1709218800 s) has the start 00:00 of
February 1 (1706713200 s). -/
theorem c15_witness :
    timeDate (fixedZone 32400) 1706655600000000000 = (2024, 1, 31) ∧
      timeAddDate (fixedZone 32400) 1706655600000000000 0 (-1) 0 = 1703977200000000000 ∧
      timeDate (fixedZone 32400) (timeAddDate (fixedZone 32400) 1706655600000000000 0 (-1) 0)
        = (2023, 12, 31) ∧
      timeAddDate (fixedZone 32400) 1709218800000000000 0 (-1) 0 = 1706713200000000000 :=
  ⟨by decide,
    ((((c15_last_month_and_year_by_calendar NewUptime (fixedZone 32400)
      1706655600000000000).2.2.1 2024 (by decide)
      ((c15_last_month_and_year_by_calendar NewUptime (fixedZone 32400)
        1706655600000000000).2.2.2.2.2 32400 (fun _ => rfl) _)).2.2.2 rfl).1).trans
      (by decide),
    ((c15_last_month_and_year_by_calendar NewUptime (fixedZone 32400)
      1706655600000000000).2.2.1 2024 (by decide)
      ((c15_last_month_and_year_by_calendar NewUptime (fixedZone 32400)
        1706655600000000000).2.2.2.2.2 32400 (fun _ => rfl) _)).1,
    by decide⟩

/-- Counterexample to claim C15 as stated: in the location `Pacific/Kiritimati`, where
December 31, 1994 was skipped, 12:00 of January 31, 1995 (791503200 s) has the start 12:00 of
January 1, 1995 (788911200 s), which is not on December 31 and is exactly 30 days before
`now`. -/
theorem c15_counterexample :
    timeDate kiritimati 791503200000000000 = (1995, 1, 31) ∧
      timeAddDate kiritimati 791503200000000000 0 (-1) 0 = 788911200000000000 ∧
      timeDate kiritimati (timeAddDate kiritimati 791503200000000000 0 (-1) 0)
        = (1995, 1, 1) ∧
      timeAddDate kiritimati 791503200000000000 0 (-1) 0 = 791503200000000000 - days 30 := by
  decide

end Gatus
